import Mathlib

/-!
Verification development for `srslsud.py` (Save/Restore Software List Script
for Ubuntu and Debian).  The APT engine of the script is shallowly embedded
here: Python strings are modelled as `List Char`, Python dictionaries as
structures, and the external collaborators (apt cache, source registry, key
store) as explicit inputs of the pure model functions.  A Python function
that can raise an exception on some input is modelled with an `Option`
result, `none` standing for the raised exception.
-/

namespace Srslsud

/-- Python strings are modelled as lists of characters. -/
abbrev Str := List Char

/-- Characters treated as whitespace by Python's `str.split()` (ASCII model). -/
def isWsChar (c : Char) : Bool :=
  c = ' ' || c = '\t' || c = '\n' || c = '\r'

/-- Python's substring test `needle in haystack`. -/
def isSubListOf (n : Str) : Str → Bool
  | [] => n.isEmpty
  | c :: cs => n.isPrefixOf (c :: cs) || isSubListOf n cs

/-- Splitting on every character satisfying a predicate, empty parts kept. -/
def splitOnPred (p : Char → Bool) : Str → List Str
  | [] => [[]]
  | c :: cs =>
    match splitOnPred p cs with
    | [] => [[]]
    | h :: t => if p c then [] :: h :: t else (c :: h) :: t

/-- Python's `s.split(sep)` for a one-character separator `sep`:
all parts between occurrences of `sep`, empty parts kept. -/
def splitOnChar (sep : Char) (s : Str) : List Str :=
  splitOnPred (fun c => c == sep) s

/-- Python's whitespace `str.split()` (no argument): split on every
whitespace character and drop the empty parts. -/
def pySplitWs (s : Str) : List Str :=
  (splitOnPred isWsChar s).filter (fun t => !t.isEmpty)

/-- Python's `sep.join(parts)` for a one-character separator. -/
def joinSep (sep : Char) : List Str → Str
  | [] => []
  | [t] => t
  | t :: u :: ts => t ++ sep :: joinSep sep (u :: ts)

/-- Python's `list.remove(v)`: drop the first element equal to `v`. -/
def pyRemoveFirst (l : List Str) (v : Str) : List Str :=
  match l with
  | [] => []
  | x :: xs => if x = v then xs else x :: pyRemoveFirst xs v

/-- One Python `for sb in sss: if cond(sb): sss.remove(sb)` loop over a list
that is mutated while being iterated.  The iterator keeps a plain index `i`
that advances after every yielded element even when the list has just
shrunk, so the element following a removed one is skipped.  `fuel` bounds
the number of iterations; since every iteration advances `i` and never
lengthens the list, `fuel = l.length` iterations always suffice, so
`pyFilterRemove` below is an exact model of the loop. -/
def pyFilterLoopF (cond : Str → Bool) : Nat → List Str → Nat → List Str
  | 0, l, _ => l
  | fuel + 1, l, i =>
    if h : i < l.length then
      if cond (l.get ⟨i, h⟩) then
        pyFilterLoopF cond fuel (pyRemoveFirst l (l.get ⟨i, h⟩)) (i + 1)
      else pyFilterLoopF cond fuel l (i + 1)
    else l

/-- The Python removal loop of `apt_remove_word_from_brackets_in_sources_list`,
started at index 0 with enough fuel. -/
def pyFilterRemove (cond : Str → Bool) (l : List Str) : List Str :=
  pyFilterLoopF cond l.length l 0

/-- Model of `apt_remove_word_from_brackets_in_sources_list(st, wordtoremove)`
(srslsud.py lines 488-511).  The line is split on `]`; when exactly one `]`
is present the part before it is tokenized on whitespace, tokens containing
`wordtoremove` are removed by the mutating loop, the line is rejoined, and
if no `[` is left one is synthesized in front of the second token.
`none` models the `IndexError` raised by `t[1]` when fewer than two tokens
remain at that point. -/
def apt_remove_word_from_brackets_in_sources_list (st wordtoremove : Str) :
    Option Str :=
  let ss := splitOnChar ']' st
  if ss.length = 2 then
    let sss := pySplitWs (ss.headD [])
    let sss2 := pyFilterRemove (fun sb => isSubListOf wordtoremove sb) sss
    let st1 := joinSep ' ' sss2 ++ ']' :: ss.getD 1 []
    if isSubListOf ['['] st1 then some st1
    else
      let t := pySplitWs st1
      if 2 ≤ t.length then some (joinSep ' ' (t.set 1 ('[' :: t.getD 1 [])))
      else none
  else some st

/-- Claim C9: when splitting on `]` yields a number of parts different from
two, the normalizer returns its input unchanged, for any strip-word. -/
theorem c9_no_single_bracket_unchanged (st w : Str)
    (h : (splitOnChar ']' st).length ≠ 2) :
    apt_remove_word_from_brackets_in_sources_list st w = some st := by
  unfold apt_remove_word_from_brackets_in_sources_list
  simp only [if_neg h]

theorem c9_witness :
    (splitOnChar ']' ("deb http://x/y bionic stable".data)).length ≠ 2 ∧
      apt_remove_word_from_brackets_in_sources_list
        ("deb http://x/y bionic stable".data) ("signed-by".data) =
        some ("deb http://x/y bionic stable".data) :=
  ⟨by decide,
   c9_no_single_bracket_unchanged ("deb http://x/y bionic stable".data)
     ("signed-by".data) (by decide)⟩

/-- Claim C2, counterexample: the normalizer is not idempotent.  The mutating
removal loop skips the token that follows a removed one, so of two adjacent
`signed-by` tokens only the first is removed; a second normalization then
removes the survivor, giving a different string. -/
theorem c2_counterexample :
    (apt_remove_word_from_brackets_in_sources_list
        ("deb [arch=amd64 signed-by=/a.gpg signed-by=/b.gpg] http://x/y bionic".data)
        ("signed-by".data)).bind
      (fun r => apt_remove_word_from_brackets_in_sources_list r ("signed-by".data)) ≠
    apt_remove_word_from_brackets_in_sources_list
        ("deb [arch=amd64 signed-by=/a.gpg signed-by=/b.gpg] http://x/y bionic".data)
        ("signed-by".data) := by decide

/-- Claim C4, counterexample: with two adjacent strip-word tokens in the
options block, the second survives in the output, so the output does contain
an original options-block token holding the strip-word. -/
theorem c4_counterexample :
    apt_remove_word_from_brackets_in_sources_list
        ("deb [arch=i386 signed-by=/k1.gpg signed-by=/k2.gpg] http://h/p suite".data)
        ("signed-by".data) =
      some ("deb [arch=i386 signed-by=/k2.gpg] http://h/p suite".data) ∧
    ("signed-by=/k2.gpg".data) ∈
      pySplitWs (("deb [arch=i386 signed-by=/k1.gpg signed-by=/k2.gpg] http://h/p suite".data
        |> splitOnChar ']' |>.headD [])) ∧
    isSubListOf ("signed-by".data) ("signed-by=/k2.gpg".data) = true := by
  refine ⟨by decide, by decide, by decide⟩

/-- Appending a suffix to the last element of a token list. -/
def appendLast (s : Str) : List Str → List Str
  | [] => []
  | [t] => [t ++ s]
  | t :: u :: ts => t :: appendLast s (u :: ts)

/-- Prepending a character to the first element of a token list. -/
def prependFirst (c : Char) : List Str → List Str
  | [] => []
  | t :: ts => (c :: t) :: ts

theorem splitOnPred_ne_nil (p : Char → Bool) (s : Str) : splitOnPred p s ≠ [] := by
  cases s with
  | nil => simp [splitOnPred]
  | cons c cs =>
    unfold splitOnPred
    cases splitOnPred p cs with
    | nil => simp
    | cons a t =>
      by_cases hp : p c
      · simp [hp]
      · simp [hp]

theorem splitOnPred_cons_true {p : Char → Bool} {c : Char} (cs : Str)
    (hp : p c = true) : splitOnPred p (c :: cs) = [] :: splitOnPred p cs := by
  simp only [splitOnPred]
  cases h : splitOnPred p cs with
  | nil => exact absurd h (splitOnPred_ne_nil p cs)
  | cons a t => simp [hp]

theorem splitOnPred_cons_false {p : Char → Bool} {c : Char} {cs : Str} {a : Str}
    {t : List Str} (hp : p c = false) (h : splitOnPred p cs = a :: t) :
    splitOnPred p (c :: cs) = (c :: a) :: t := by
  simp only [splitOnPred, h, hp]
  simp

theorem splitOnPred_of_none {p : Char → Bool} {s : Str}
    (h : ∀ c ∈ s, p c = false) : splitOnPred p s = [s] := by
  induction s with
  | nil => simp [splitOnPred]
  | cons c cs ih =>
    have hc : p c = false := h c (List.mem_cons_self c cs)
    have ihs : splitOnPred p cs = [cs] := ih (fun d hd => h d (List.mem_cons_of_mem c hd))
    exact splitOnPred_cons_false hc ihs

theorem splitOnPred_append_of_none {p : Char → Bool} {x : Str}
    (hx : ∀ c ∈ x, p c = false) (r : Str) {a : Str} {t : List Str}
    (hr : splitOnPred p r = a :: t) :
    splitOnPred p (x ++ r) = (x ++ a) :: t := by
  induction x with
  | nil => simpa using hr
  | cons c cs ih =>
    have hc : p c = false := hx c (List.mem_cons_self c cs)
    have ihs : splitOnPred p (cs ++ r) = (cs ++ a) :: t :=
      ih (fun d hd => hx d (List.mem_cons_of_mem c hd))
    simpa using splitOnPred_cons_false hc ihs

/-- Splitting a string with a single separator occurrence yields its two sides. -/
theorem splitOnPred_two {p : Char → Bool} {A B : Str} {c : Char}
    (hA : ∀ a ∈ A, p a = false) (hc : p c = true) (hB : ∀ b ∈ B, p b = false) :
    splitOnPred p (A ++ c :: B) = [A, B] := by
  have h1 : splitOnPred p (c :: B) = [] :: splitOnPred p B := splitOnPred_cons_true B hc
  rw [splitOnPred_of_none hB] at h1
  have := splitOnPred_append_of_none hA (c :: B) h1
  simpa using this

theorem joinSep_cons {sep : Char} {ts : List Str} (t : Str) (h : ts ≠ []) :
    joinSep sep (t :: ts) = t ++ sep :: joinSep sep ts := by
  cases ts with
  | nil => exact absurd rfl h
  | cons u us => rfl

theorem joinSep_append {sep : Char} {xs ys : List Str} (h1 : xs ≠ []) (h2 : ys ≠ []) :
    joinSep sep (xs ++ ys) = joinSep sep xs ++ sep :: joinSep sep ys := by
  induction xs with
  | nil => exact absurd rfl h1
  | cons x xs ih =>
    cases xs with
    | nil =>
      cases ys with
      | nil => exact absurd rfl h2
      | cons y ys => simp [joinSep]
    | cons x' xs' =>
      have ihy := ih (by simp)
      simp only [List.cons_append] at ihy ⊢
      rw [joinSep_cons x (by simp), joinSep_cons x (by simp), ihy]
      simp

theorem appendLast_ne_nil {ts : List Str} (s : Str) (h : ts ≠ []) :
    appendLast s ts ≠ [] := by
  cases ts with
  | nil => exact absurd rfl h
  | cons t us => cases us <;> simp [appendLast]

theorem joinSep_appendLast {sep : Char} {ts : List Str} (s : Str) (h : ts ≠ []) :
    joinSep sep (appendLast s ts) = joinSep sep ts ++ s := by
  induction ts with
  | nil => exact absurd rfl h
  | cons t us ih =>
    cases us with
    | nil => simp [appendLast, joinSep]
    | cons u vs =>
      have h1 : appendLast s (u :: vs) ≠ [] := appendLast_ne_nil s (by simp)
      rw [show appendLast s (t :: u :: vs) = t :: appendLast s (u :: vs) from rfl,
        joinSep_cons t h1, joinSep_cons t (by simp), ih (by simp)]
      simp

theorem mem_joinSep {sep c : Char} (hc : c ≠ sep) (ts : List Str) :
    c ∈ joinSep sep ts ↔ ∃ t ∈ ts, c ∈ t := by
  induction ts with
  | nil => simp [joinSep]
  | cons t us ih =>
    cases us with
    | nil => simp [joinSep]
    | cons u vs =>
      rw [joinSep_cons t (by simp)]
      simp only [List.mem_append, List.mem_cons, ih]
      constructor
      · rintro (h | h | h)
        · exact ⟨t, Or.inl rfl, h⟩
        · exact absurd h hc
        · obtain ⟨w, hw, hcw⟩ := h
          exact ⟨w, Or.inr hw, hcw⟩
      · rintro ⟨w, hw | hw, hcw⟩
        · exact Or.inl (hw ▸ hcw)
        · exact Or.inr (Or.inr ⟨w, hw, hcw⟩)

/-- A whitespace split of a single-space join of nonempty whitespace-free
tokens recovers exactly the tokens. -/
theorem pySplitWs_joinSep {ts : List Str}
    (h : ∀ t ∈ ts, t ≠ [] ∧ ∀ c ∈ t, isWsChar c = false) :
    pySplitWs (joinSep ' ' ts) = ts := by
  induction ts with
  | nil => simp [joinSep, pySplitWs, splitOnPred]
  | cons t us ih =>
    have ht := h t (List.mem_cons_self t us)
    cases us with
    | nil =>
      unfold pySplitWs
      rw [show joinSep ' ' [t] = t from rfl, splitOnPred_of_none ht.2]
      simp [ht.1]
    | cons u vs =>
      have hrest : pySplitWs (joinSep ' ' (u :: vs)) = u :: vs :=
        ih (fun w hw => h w (List.mem_cons_of_mem t hw))
      have hne : t.isEmpty = false := by
        cases t with
        | nil => exact absurd rfl ht.1
        | cons c0 t0 => rfl
      have h1 : splitOnPred isWsChar (' ' :: joinSep ' ' (u :: vs)) =
          [] :: splitOnPred isWsChar (joinSep ' ' (u :: vs)) :=
        splitOnPred_cons_true _ (by decide)
      unfold pySplitWs at hrest ⊢
      rw [joinSep_cons t (by simp), splitOnPred_append_of_none ht.2 _ h1]
      simp only [List.append_nil, List.filter_cons, hne]
      simp [hrest]

theorem pyFilterLoopF_past_end {cond : Str → Bool} {l : List Str} {i : Nat}
    (h : l.length ≤ i) : ∀ fuel, pyFilterLoopF cond fuel l i = l := by
  intro fuel
  cases fuel with
  | zero => rfl
  | succ f =>
    unfold pyFilterLoopF
    rw [dif_neg (by omega)]

theorem get_append_cons :
    ∀ (done : List Str) (x : Str) (xs : List Str)
      (h : done.length < (done ++ x :: xs).length),
      (done ++ x :: xs).get ⟨done.length, h⟩ = x := by
  intro done
  induction done with
  | nil => intro x xs h; rfl
  | cons d ds ih =>
    intro x xs h
    simpa using ih x xs (by simp)

theorem pyRemoveFirst_append {x : Str} :
    ∀ (done : List Str), x ∉ done →
      ∀ xs, pyRemoveFirst (done ++ x :: xs) x = done ++ xs := by
  intro done
  induction done with
  | nil => intro _ xs; simp [pyRemoveFirst]
  | cons d ds ih =>
    intro hmem xs
    have hd : ¬d = x := fun e => hmem (by simp [e])
    have hds : x ∉ ds := fun e => hmem (List.mem_cons_of_mem d e)
    simp [pyRemoveFirst, hd, ih hds xs]

/-- Behaviour of the Python remove-while-iterating loop when at most one
element matches: every matching element is removed and the scan never skips
a matching element, so the loop acts as a filter. -/
theorem pyFilterLoopF_spec (cond : Str → Bool) :
    ∀ (fuel : Nat) (rest done : List Str), rest.length ≤ fuel →
      (∀ t ∈ done, cond t = false) → rest.countP cond ≤ 1 →
      pyFilterLoopF cond fuel (done ++ rest) done.length =
        done ++ rest.filter (fun t => !cond t) := by
  intro fuel
  induction fuel with
  | zero =>
    intro rest done hlen _ _
    have hr : rest = [] := List.length_eq_zero.mp (Nat.le_zero.mp hlen)
    subst hr
    simp [pyFilterLoopF]
  | succ f ihf =>
    intro rest done hlen hdone hcount
    cases rest with
    | nil =>
      rw [List.append_nil]
      simpa using pyFilterLoopF_past_end (Nat.le_refl done.length) (f + 1)
    | cons x xs =>
      have hi : done.length < (done ++ x :: xs).length := by
        simp [List.length_append]
      unfold pyFilterLoopF
      rw [dif_pos hi]
      rw [get_append_cons done x xs hi]
      cases hx : cond x with
      | true =>
        rw [if_pos rfl]
        have hxnotin : x ∉ done := by
          intro hmem
          rw [hdone x hmem] at hx
          exact Bool.false_ne_true hx
        rw [pyRemoveFirst_append done hxnotin xs]
        cases xs with
        | nil =>
          rw [List.append_nil]
          rw [pyFilterLoopF_past_end (by omega) f]
          simp [List.filter_cons, hx]
        | cons y ys =>
          have h0 : (y :: ys).countP cond = 0 := by
            rw [List.countP_cons, hx, if_pos rfl] at hcount
            omega
          have hy : cond y = false := by
            have := List.countP_eq_zero.mp h0 y (List.mem_cons_self y ys)
            simpa using this
          have hys : ys.countP cond = 0 := by
            rw [List.countP_cons, hy, if_neg Bool.false_ne_true] at h0
            omega
          have e1 : done ++ y :: ys = (done ++ [y]) ++ ys := by simp
          have e2 : done.length + 1 = (done ++ [y]).length := by simp
          rw [e1, e2, ihf ys (done ++ [y])
            (by simp at hlen ⊢; omega)
            (by
              intro w hw
              rcases List.mem_append.mp hw with hw | hw
              · exact hdone w hw
              · simpa [List.mem_singleton.mp hw] using hy)
            (by omega)]
          have hfilys : ys.filter (fun t => !cond t) = ys :=
            List.filter_eq_self.mpr (fun a ha => by
              simp [List.countP_eq_zero.mp hys a ha])
          simp [List.filter_cons, hx, hy, hfilys]
      | false =>
        rw [if_neg (by simp)]
        have e1 : done ++ x :: xs = (done ++ [x]) ++ xs := by simp
        have e2 : done.length + 1 = (done ++ [x]).length := by simp
        have hcx : xs.countP cond ≤ 1 := by
          rw [List.countP_cons, hx, if_neg Bool.false_ne_true] at hcount
          omega
        rw [e1, e2, ihf xs (done ++ [x])
          (by simp at hlen ⊢; omega)
          (by
            intro w hw
            rcases List.mem_append.mp hw with hw | hw
            · exact hdone w hw
            · simpa [List.mem_singleton.mp hw] using hx)
          hcx]
        simp [List.filter_cons, hx]

/-- The removal loop equals an ordinary filter whenever at most one element
of the list contains the strip-word. -/
theorem pyFilterRemove_eq_filter {cond : Str → Bool} {l : List Str}
    (h : l.countP cond ≤ 1) :
    pyFilterRemove cond l = l.filter (fun t => !cond t) := by
  have := pyFilterLoopF_spec cond l.length l [] (Nat.le_refl _) (by simp) h
  simpa [pyFilterRemove] using this

theorem isSubListOf_cons_ne {a c : Char} {w s : Str} (hne : a ≠ c) :
    isSubListOf (a :: w) (c :: s) = isSubListOf (a :: w) s := by
  have hb : (a == c) = false := beq_eq_false_iff_ne.mpr hne
  simp [isSubListOf, List.isPrefixOf, hb]

theorem isPrefixOf_append_singleton {c : Char} {w : Str} (hc : c ∉ w) :
    ∀ s : Str, w.isPrefixOf (s ++ [c]) = w.isPrefixOf s := by
  induction w with
  | nil => intro s; simp [List.isPrefixOf]
  | cons a w' ih =>
    intro s
    have ha : ¬a = c := fun e => hc (by simp [e])
    have hc' : c ∉ w' := fun e => hc (List.mem_cons_of_mem a e)
    cases s with
    | nil => simp [List.isPrefixOf, beq_eq_false_iff_ne.mpr ha]
    | cons d ds => simp [List.isPrefixOf, ih hc' ds]

theorem isSubListOf_append_singleton {c : Char} {w : Str} (hw : w ≠ [])
    (hc : c ∉ w) : ∀ s : Str, isSubListOf w (s ++ [c]) = isSubListOf w s := by
  intro s
  induction s with
  | nil =>
    obtain ⟨a, w', rfl⟩ := List.exists_cons_of_ne_nil hw
    have ha : ¬a = c := fun e => hc (by simp [e])
    simp [isSubListOf, List.isPrefixOf, beq_eq_false_iff_ne.mpr ha]
  | cons d ds ih =>
    have : (d :: ds) ++ [c] = d :: (ds ++ [c]) := by simp
    rw [this]
    show (w.isPrefixOf (d :: (ds ++ [c])) || isSubListOf w (ds ++ [c])) =
      (w.isPrefixOf (d :: ds) || isSubListOf w ds)
    rw [ih, show d :: (ds ++ [c]) = (d :: ds) ++ [c] by simp,
      isPrefixOf_append_singleton hc (d :: ds)]

theorem isSubListOf_single_iff {c : Char} {s : Str} :
    isSubListOf [c] s = true ↔ c ∈ s := by
  induction s with
  | nil => simp [isSubListOf]
  | cons d ds ih => simp [isSubListOf, List.isPrefixOf, ih, beq_iff_eq]

/-- A well-formed token of a sources-list line: nonempty, and free of
whitespace and of both brackets. -/
def goodTok (t : Str) : Prop :=
  t ≠ [] ∧ ∀ c ∈ t, isWsChar c = false ∧ c ≠ '[' ∧ c ≠ ']'

instance goodTokDecidable (t : Str) : Decidable (goodTok t) :=
  inferInstanceAs
    (Decidable (t ≠ [] ∧ ∀ c ∈ t, isWsChar c = false ∧ c ≠ '[' ∧ c ≠ ']'))

/-- The canonical way an options block appears inside a sources-list line:
`[` is glued to the first option token and `]` to the last one. -/
def bracketize (opts : List Str) : List Str :=
  appendLast [']'] (prependFirst '[' opts)

/-- A canonical single-space sources-list line
`deb [o1 ... ok] r1 ... rm` built from its option tokens and its trailing
tokens. -/
def mkEntry (opts rs : List Str) : Str :=
  joinSep ' ' ("deb".data :: bracketize opts ++ rs)

theorem prependFirst_ne_nil {c : Char} {l : List Str} (h : l ≠ []) :
    prependFirst c l ≠ [] := by
  cases l with
  | nil => exact absurd rfl h
  | cons a t => simp [prependFirst]

theorem prependFirst_appendLast {s : Str} {c : Char} (u : Str) (ts : List Str) :
    prependFirst c (appendLast s (u :: ts)) = appendLast s ((c :: u) :: ts) := by
  cases ts with
  | nil => simp [appendLast, prependFirst]
  | cons v vs => simp [appendLast, prependFirst]

theorem appendLast_tok {s : Str} (hs : ∀ c ∈ s, isWsChar c = false) :
    ∀ {l : List Str}, (∀ t ∈ l, t ≠ [] ∧ ∀ c ∈ t, isWsChar c = false) →
      ∀ t ∈ appendLast s l, t ≠ [] ∧ ∀ c ∈ t, isWsChar c = false := by
  intro l
  induction l with
  | nil => intro _ t ht; simp [appendLast] at ht
  | cons u vs ih =>
    intro hl t ht
    cases vs with
    | nil =>
      simp only [appendLast, List.mem_singleton] at ht
      subst ht
      have hu := hl u (List.mem_cons_self u [])
      refine ⟨by simp [hu.1], ?_⟩
      intro c hc
      rcases List.mem_append.mp hc with hc | hc
      · exact hu.2 c hc
      · exact hs c hc
    | cons v ws =>
      rw [show appendLast s (u :: v :: ws) = u :: appendLast s (v :: ws) from rfl] at ht
      rcases List.mem_cons.mp ht with ht | ht
      · exact ht ▸ hl u (List.mem_cons_self u _)
      · exact ih (fun w hw => hl w (List.mem_cons_of_mem u hw)) t ht

/-- Decomposition of a canonical entry around its single closing bracket. -/
theorem mkEntry_decomp {opts rs : List Str} (ho : opts ≠ []) (hr : rs ≠ []) :
    mkEntry opts rs =
      joinSep ' ' ("deb".data :: prependFirst '[' opts) ++
        ']' :: ' ' :: joinSep ' ' rs := by
  obtain ⟨o, os, rfl⟩ := List.exists_cons_of_ne_nil ho
  have h1 : ("deb".data :: bracketize (o :: os)) =
      appendLast [']'] ("deb".data :: ('[' :: o) :: os) := by
    rfl
  unfold mkEntry
  rw [joinSep_append (by simp) hr, h1, joinSep_appendLast _ (by simp)]
  simp [prependFirst]

theorem joinSep_chars {sep : Char} {P : Char → Prop} (hsep : P sep) :
    ∀ {ts : List Str}, (∀ t ∈ ts, ∀ c ∈ t, P c) →
      ∀ c ∈ joinSep sep ts, P c := by
  intro ts
  induction ts with
  | nil => intro _ c hc; simp [joinSep] at hc
  | cons t us ih =>
    intro h c hc
    cases us with
    | nil => exact h t (List.mem_cons_self t []) c hc
    | cons u vs =>
      rw [joinSep_cons t (by simp)] at hc
      rcases List.mem_append.mp hc with hc | hc
      · exact h t (List.mem_cons_self t _) c hc
      · rcases List.mem_cons.mp hc with rfl | hc
        · exact hsep
        · exact ih (fun w hw => h w (List.mem_cons_of_mem t hw)) c hc

theorem isSubListOf_cons_lb {word t : Str} (hw : word ≠ []) (hlb : '[' ∉ word) :
    isSubListOf word ('[' :: t) = isSubListOf word t := by
  obtain ⟨a, w', rfl⟩ := List.exists_cons_of_ne_nil hw
  exact isSubListOf_cons_ne (fun e => hlb (by simp [e]))


/-- Master computation for the normalizer on a canonical sources-list line
`deb [o1 ... ok] r1 ... rm` when at most one option token contains the
strip-word: the matching option is removed and, when no option remains, the
empty bracket is re-synthesized after the (now bracket-carrying) first word. -/
theorem normalize_mkEntry (opts rs : List Str) (word : Str)
    (hOpts : opts ≠ []) (hOptsTok : ∀ t ∈ opts, goodTok t)
    (hRs : rs ≠ []) (hRsTok : ∀ t ∈ rs, goodTok t)
    (hW : word ≠ []) (hWlb : '[' ∉ word)
    (hDeb : isSubListOf word ("deb".data) = false)
    (hCount : opts.countP (fun t => isSubListOf word t) ≤ 1) :
    apt_remove_word_from_brackets_in_sources_list (mkEntry opts rs) word =
      some (match opts.filter (fun t => !isSubListOf word t) with
            | [] => joinSep ' ' ("deb]".data :: prependFirst '[' rs)
            | o :: os => mkEntry (o :: os) rs) := by
  obtain ⟨o₀, os, rfl⟩ := List.exists_cons_of_ne_nil hOpts
  obtain ⟨r₀, rs', rfl⟩ := List.exists_cons_of_ne_nil hRs
  have hTokO0 := hOptsTok o₀ (List.mem_cons_self _ _)
  have hTA : ∀ t ∈ ("deb".data :: ('[' :: o₀) :: os),
      t ≠ [] ∧ ∀ c ∈ t, isWsChar c = false := by
    intro t ht
    rcases List.mem_cons.mp ht with rfl | ht
    · exact ⟨by decide, by decide⟩
    rcases List.mem_cons.mp ht with rfl | ht
    · refine ⟨by simp, ?_⟩
      intro c hc
      rcases List.mem_cons.mp hc with rfl | hc
      · decide
      · exact (hTokO0.2 c hc).1
    · have h2 := hOptsTok t (List.mem_cons_of_mem _ ht)
      exact ⟨h2.1, fun c hc => (h2.2 c hc).1⟩
  have hRsT : ∀ t ∈ (r₀ :: rs'), t ≠ [] ∧ ∀ c ∈ t, isWsChar c = false :=
    fun t ht => ⟨(hRsTok t ht).1, fun c hc => ((hRsTok t ht).2 c hc).1⟩
  have hA_rb : ∀ a ∈ joinSep ' ' ("deb".data :: ('[' :: o₀) :: os), ¬a = ']' := by
    refine @joinSep_chars ' ' (fun c => ¬c = ']') (by decide) _ ?_
    intro t ht c hc
    rcases List.mem_cons.mp ht with rfl | ht
    · exact (by decide : ∀ x ∈ ("deb".data : Str), ¬x = ']') c hc
    rcases List.mem_cons.mp ht with rfl | ht
    · rcases List.mem_cons.mp hc with rfl | hc
      · decide
      · exact ((hTokO0.2 c hc).2).2
    · exact ((hOptsTok t (List.mem_cons_of_mem _ ht)).2 c hc).2.2
  have hB_rb : ∀ b ∈ (' ' :: joinSep ' ' (r₀ :: rs')), (b == ']') = false := by
    intro b hb
    apply beq_eq_false_iff_ne.mpr
    rcases List.mem_cons.mp hb with rfl | hb
    · decide
    · exact @joinSep_chars ' ' (fun c => ¬c = ']') (by decide) _
        (fun t ht c hc => ((hRsTok t ht).2 c hc).2.2) b hb
  have hB_lb : ∀ b ∈ (joinSep ' ' (r₀ :: rs')), ¬b = '[' :=
    @joinSep_chars ' ' (fun c => ¬c = '[') (by decide) _
      (fun t ht c hc => ((hRsTok t ht).2 c hc).2.1)
  have hdecomp := @mkEntry_decomp (o₀ :: os) (r₀ :: rs') (by simp) (by simp)
  rw [show prependFirst '[' (o₀ :: os) = ('[' :: o₀) :: os from rfl] at hdecomp
  have hsplit : splitOnChar ']' (mkEntry (o₀ :: os) (r₀ :: rs')) =
      [joinSep ' ' ("deb".data :: ('[' :: o₀) :: os),
        ' ' :: joinSep ' ' (r₀ :: rs')] := by
    rw [hdecomp]
    unfold splitOnChar
    exact splitOnPred_two
      (fun a ha => beq_eq_false_iff_ne.mpr (hA_rb a ha))
      (by decide) hB_rb
  have hsplitWsA : pySplitWs (joinSep ' ' ("deb".data :: ('[' :: o₀) :: os)) =
      "deb".data :: ('[' :: o₀) :: os := pySplitWs_joinSep hTA
  simp only [apt_remove_word_from_brackets_in_sources_list, hsplit]
  rw [if_pos (show ([joinSep ' ' ("deb".data :: ('[' :: o₀) :: os),
      ' ' :: joinSep ' ' (r₀ :: rs')] : List Str).length = 2 from rfl)]
  rw [show ([joinSep ' ' ("deb".data :: ('[' :: o₀) :: os),
      ' ' :: joinSep ' ' (r₀ :: rs')] : List Str).headD [] =
      joinSep ' ' ("deb".data :: ('[' :: o₀) :: os) from rfl]
  rw [show ([joinSep ' ' ("deb".data :: ('[' :: o₀) :: os),
      ' ' :: joinSep ' ' (r₀ :: rs')] : List Str).getD 1 [] =
      ' ' :: joinSep ' ' (r₀ :: rs') from rfl]
  rw [hsplitWsA]
  cases hx : isSubListOf word o₀ with
  | false =>
    have hc1 : isSubListOf word ('[' :: o₀) = false := by
      rw [isSubListOf_cons_lb hW hWlb, hx]
    have hcnt2 : ("deb".data :: ('[' :: o₀) :: os).countP
        (fun sb => isSubListOf word sb) ≤ 1 := by
      rw [List.countP_cons, List.countP_cons, hDeb, hc1,
        if_neg Bool.false_ne_true]
      rw [List.countP_cons, hx, if_neg Bool.false_ne_true] at hCount
      omega
    rw [pyFilterRemove_eq_filter hcnt2]
    have hfil : ("deb".data :: ('[' :: o₀) :: os).filter
        (fun t => !isSubListOf word t) =
        "deb".data :: ('[' :: o₀) :: os.filter (fun t => !isSubListOf word t) := by
      simp [List.filter_cons, hDeb, hc1]
    rw [hfil]
    have hlbmem : isSubListOf ['[']
        (joinSep ' ' ("deb".data :: ('[' :: o₀) ::
            os.filter (fun t => !isSubListOf word t)) ++
          ']' :: ' ' :: joinSep ' ' (r₀ :: rs')) = true := by
      rw [isSubListOf_single_iff]
      apply List.mem_append.mpr
      left
      rw [mem_joinSep (by decide)]
      exact ⟨'[' :: o₀, by simp, by simp⟩
    rw [if_pos hlbmem]
    rw [show (o₀ :: os).filter (fun t => !isSubListOf word t) =
        o₀ :: os.filter (fun t => !isSubListOf word t) by
      simp [List.filter_cons, hx]]
    show some _ = some (mkEntry (o₀ :: os.filter (fun t => !isSubListOf word t))
      (r₀ :: rs'))
    rw [@mkEntry_decomp (o₀ :: os.filter (fun t => !isSubListOf word t))
      (r₀ :: rs') (by simp) (by simp)]
    rfl
  | true =>
    have hc1 : isSubListOf word ('[' :: o₀) = true := by
      rw [isSubListOf_cons_lb hW hWlb, hx]
    have hos0 : os.countP (fun t => isSubListOf word t) = 0 := by
      rw [List.countP_cons, hx, if_pos rfl] at hCount
      omega
    have hosfil : os.filter (fun t => !isSubListOf word t) = os :=
      List.filter_eq_self.mpr (fun t ht => by
        simp [List.countP_eq_zero.mp hos0 t ht])
    have hcnt2 : ("deb".data :: ('[' :: o₀) :: os).countP
        (fun sb => isSubListOf word sb) ≤ 1 := by
      rw [List.countP_cons, List.countP_cons, hDeb, hc1,
        if_neg Bool.false_ne_true, if_pos rfl, hos0]
    rw [pyFilterRemove_eq_filter hcnt2]
    have hfil : ("deb".data :: ('[' :: o₀) :: os).filter
        (fun t => !isSubListOf word t) = "deb".data :: os := by
      simp [List.filter_cons, hDeb, hc1, hosfil]
    rw [hfil]
    rw [show (o₀ :: os).filter (fun t => !isSubListOf word t) = os by
      simp [List.filter_cons, hx, hosfil]]
    cases os with
    | nil =>
      have hnolb : ¬isSubListOf ['[']
          (joinSep ' ' ["deb".data] ++
            ']' :: ' ' :: joinSep ' ' (r₀ :: rs')) = true := by
        rw [isSubListOf_single_iff]
        intro hmem
        rcases List.mem_append.mp hmem with hmem | hmem
        · exact absurd hmem (by decide)
        rcases List.mem_cons.mp hmem with e | hmem
        · exact absurd e (by decide)
        rcases List.mem_cons.mp hmem with e | hmem
        · exact absurd e (by decide)
        · exact hB_lb '[' hmem rfl
      rw [if_neg hnolb]
      have hst1 : (joinSep ' ' ["deb".data] ++
          ']' :: ' ' :: joinSep ' ' (r₀ :: rs') : Str) =
          joinSep ' ' ("deb]".data :: r₀ :: rs') := by
        have e1 : joinSep ' ' ("deb]".data :: r₀ :: rs') =
            "deb]".data ++ ' ' :: joinSep ' ' (r₀ :: rs') :=
          joinSep_cons _ (by simp)
        rw [e1, show ("deb]".data : Str) = "deb".data ++ [']'] by decide]
        simp [joinSep]
      rw [hst1, pySplitWs_joinSep (by
        intro t ht
        rcases List.mem_cons.mp ht with rfl | ht
        · exact ⟨by decide, by decide⟩
        · exact hRsT t ht)]
      rw [if_pos (show 2 ≤ ("deb]".data :: r₀ :: rs' : List Str).length by
        simp [List.length_cons])]
      rw [show (("deb]".data :: r₀ :: rs').set 1
          ('[' :: ("deb]".data :: r₀ :: rs').getD 1 []) : List Str) =
          "deb]".data :: ('[' :: r₀) :: rs' from rfl]
      rfl
    | cons u ts =>
      have hu := hOptsTok u (by simp)
      have hts : ∀ t ∈ ts, goodTok t := fun t ht => hOptsTok t (by simp [ht])
      have hnolb : ¬isSubListOf ['[']
          (joinSep ' ' ("deb".data :: u :: ts) ++
            ']' :: ' ' :: joinSep ' ' (r₀ :: rs')) = true := by
        rw [isSubListOf_single_iff]
        intro hmem
        rcases List.mem_append.mp hmem with hmem | hmem
        · refine @joinSep_chars ' ' (fun c => ¬c = '[') (by decide) _
            ?_ '[' hmem rfl
          intro t ht c hc
          rcases List.mem_cons.mp ht with rfl | ht
          · exact (by decide : ∀ x ∈ ("deb".data : Str), ¬x = '[') c hc
          rcases List.mem_cons.mp ht with rfl | ht
          · exact ((hu.2 c hc).2).1
          · exact (((hts t ht).2 c hc).2).1
        rcases List.mem_cons.mp hmem with e | hmem
        · exact absurd e (by decide)
        rcases List.mem_cons.mp hmem with e | hmem
        · exact absurd e (by decide)
        · exact hB_lb '[' hmem rfl
      rw [if_neg hnolb]
      have hALne : appendLast [']'] (u :: ts) ≠ [] :=
        appendLast_ne_nil _ (by simp)
      have hst1 : (joinSep ' ' ("deb".data :: u :: ts) ++
          ']' :: ' ' :: joinSep ' ' (r₀ :: rs') : Str) =
          joinSep ' '
            (("deb".data :: appendLast [']'] (u :: ts)) ++ (r₀ :: rs')) := by
        have e1 : joinSep ' '
            (("deb".data :: appendLast [']'] (u :: ts)) ++ (r₀ :: rs')) =
            joinSep ' ' ("deb".data :: appendLast [']'] (u :: ts)) ++
              ' ' :: joinSep ' ' (r₀ :: rs') :=
          joinSep_append (by simp) (by simp)
        have e2 : joinSep ' ' ("deb".data :: appendLast [']'] (u :: ts)) =
            joinSep ' ' ("deb".data :: u :: ts) ++ [']'] := by
          rw [show ("deb".data :: appendLast [']'] (u :: ts) : List Str) =
            appendLast [']'] ("deb".data :: u :: ts) from rfl]
          exact joinSep_appendLast _ (by simp)
        rw [e1, e2]
        simp
      rw [hst1, pySplitWs_joinSep (by
        intro t ht
        rcases List.mem_append.mp ht with ht | ht
        · rcases List.mem_cons.mp ht with rfl | ht
          · exact ⟨by decide, by decide⟩
          · refine appendLast_tok (by decide) ?_ t ht
            intro w hw
            rcases List.mem_cons.mp hw with rfl | hw
            · exact ⟨hu.1, fun c hc => (hu.2 c hc).1⟩
            · exact ⟨(hts w hw).1, fun c hc => ((hts w hw).2 c hc).1⟩
        · exact hRsT t ht)]
      obtain ⟨x, xs, hAL⟩ : ∃ x xs, appendLast [']'] (u :: ts) = x :: xs := by
        cases ts with
        | nil => exact ⟨u ++ [']'], [], rfl⟩
        | cons v vs => exact ⟨u, appendLast [']'] (v :: vs), rfl⟩
      rw [show (("deb".data :: appendLast [']'] (u :: ts)) ++ (r₀ :: rs')
          : List Str) =
          "deb".data :: (appendLast [']'] (u :: ts) ++ (r₀ :: rs')) from rfl,
        hAL]
      rw [if_pos (show 2 ≤ ("deb".data :: ((x :: xs) ++ (r₀ :: rs'))
          : List Str).length by simp [List.length_cons])]
      rw [show (("deb".data :: ((x :: xs) ++ (r₀ :: rs'))).set 1
          ('[' :: ("deb".data :: ((x :: xs) ++ (r₀ :: rs'))).getD 1 [])
          : List Str) =
          "deb".data :: ('[' :: x) :: (xs ++ (r₀ :: rs')) from rfl]
      show some _ = some (mkEntry (u :: ts) (r₀ :: rs'))
      unfold mkEntry bracketize
      rw [show prependFirst '[' (u :: ts) = ('[' :: u) :: ts from rfl,
        ← prependFirst_appendLast, hAL,
        show prependFirst '[' (x :: xs) = ('[' :: x) :: xs from rfl]
      rfl

theorem bracketize_tok {l : List Str} (h : ∀ t ∈ l, goodTok t) :
    ∀ t ∈ bracketize l, t ≠ [] ∧ ∀ c ∈ t, isWsChar c = false := by
  unfold bracketize
  refine appendLast_tok (by decide) ?_
  intro t ht
  cases l with
  | nil => simp [prependFirst] at ht
  | cons o os =>
    rcases List.mem_cons.mp ht with rfl | ht
    · refine ⟨by simp, ?_⟩
      intro c hc
      rcases List.mem_cons.mp hc with rfl | hc
      · decide
      · exact ((h o (List.mem_cons_self o os)).2 c hc).1
    · exact ⟨(h t (List.mem_cons_of_mem o ht)).1,
        fun c hc => ((h t (List.mem_cons_of_mem o ht)).2 c hc).1⟩

/-- The whitespace tokens of a canonical entry are exactly its building
tokens. -/
theorem pySplitWs_mkEntry {opts rs : List Str} (ho : ∀ t ∈ opts, goodTok t)
    (hr : ∀ t ∈ rs, goodTok t) :
    pySplitWs (mkEntry opts rs) = "deb".data :: bracketize opts ++ rs := by
  unfold mkEntry
  apply pySplitWs_joinSep
  intro t ht
  rcases List.mem_cons.mp ht with rfl | ht
  · exact ⟨by decide, by decide⟩
  rcases List.mem_append.mp ht with ht | ht
  · exact bracketize_tok ho t ht
  · exact ⟨(hr t ht).1, fun c hc => ((hr t ht).2 c hc).1⟩

theorem prependFirst_no_word {word : Str} (hw : word ≠ []) (hlb : '[' ∉ word)
    {l : List Str} (h : ∀ t ∈ l, isSubListOf word t = false) :
    ∀ t ∈ prependFirst '[' l, isSubListOf word t = false := by
  cases l with
  | nil => intro t ht; simp [prependFirst] at ht
  | cons o os =>
    intro t ht
    rcases List.mem_cons.mp ht with rfl | ht
    · rw [isSubListOf_cons_lb hw hlb]
      exact h o (List.mem_cons_self o os)
    · exact h t (List.mem_cons_of_mem o ht)

theorem appendLast_no_word {word : Str} (hw : word ≠ []) (hrb : ']' ∉ word) :
    ∀ {l : List Str}, (∀ t ∈ l, isSubListOf word t = false) →
      ∀ t ∈ appendLast [']'] l, isSubListOf word t = false := by
  intro l
  induction l with
  | nil => intro _ t ht; simp [appendLast] at ht
  | cons u vs ih =>
    intro h t ht
    cases vs with
    | nil =>
      simp only [appendLast, List.mem_singleton] at ht
      subst ht
      rw [isSubListOf_append_singleton hw hrb]
      exact h u (List.mem_cons_self u [])
    | cons v ws =>
      rw [show appendLast [']'] (u :: v :: ws) =
        u :: appendLast [']'] (v :: ws) from rfl] at ht
      rcases List.mem_cons.mp ht with rfl | ht
      · exact h t (List.mem_cons_self t _)
      · exact ih (fun w hw2 => h w (List.mem_cons_of_mem u hw2)) t ht

/-- On the bracketless rewritten form `deb] [r1 r2 ...` that the normalizer
produces when the whole options block was removed, a second normalization
changes nothing. -/
theorem normalize_fixed_nooption (rs : List Str) (word : Str)
    (hRs : rs ≠ []) (hRsTok : ∀ t ∈ rs, goodTok t)
    (hDeb : isSubListOf word ("deb".data) = false) :
    apt_remove_word_from_brackets_in_sources_list
      (joinSep ' ' ("deb]".data :: prependFirst '[' rs)) word =
      some (joinSep ' ' ("deb]".data :: prependFirst '[' rs)) := by
  obtain ⟨r₀, rs', rfl⟩ := List.exists_cons_of_ne_nil hRs
  rw [show prependFirst '[' (r₀ :: rs') = ('[' :: r₀) :: rs' from rfl]
  have hr0 := hRsTok r₀ (List.mem_cons_self _ _)
  have hJtok : ∀ t ∈ (('[' :: r₀) :: rs'), t ≠ [] ∧ ∀ c ∈ t, isWsChar c = false := by
    intro t ht
    rcases List.mem_cons.mp ht with rfl | ht
    · refine ⟨by simp, ?_⟩
      intro c hc
      rcases List.mem_cons.mp hc with rfl | hc
      · decide
      · exact ((hr0.2 c hc).1)
    · exact ⟨(hRsTok t (List.mem_cons_of_mem _ ht)).1,
        fun c hc => ((hRsTok t (List.mem_cons_of_mem _ ht)).2 c hc).1⟩
  have hKdecomp : (joinSep ' ' ("deb]".data :: ('[' :: r₀) :: rs') : Str) =
      "deb".data ++ ']' :: ' ' :: joinSep ' ' (('[' :: r₀) :: rs') := by
    rw [joinSep_cons _ (by simp),
      show ("deb]".data : Str) = "deb".data ++ [']'] by decide]
    simp
  have hJ_rb : ∀ b ∈ (' ' :: joinSep ' ' (('[' :: r₀) :: rs')), (b == ']') = false := by
    intro b hb
    apply beq_eq_false_iff_ne.mpr
    rcases List.mem_cons.mp hb with rfl | hb
    · decide
    · refine @joinSep_chars ' ' (fun c => ¬c = ']') (by decide) _ ?_ b hb
      intro t ht c hc
      rcases List.mem_cons.mp ht with rfl | ht
      · rcases List.mem_cons.mp hc with rfl | hc
        · decide
        · exact ((hr0.2 c hc)).2.2
      · exact ((hRsTok t (List.mem_cons_of_mem _ ht)).2 c hc).2.2
  have hsplit : splitOnChar ']' (joinSep ' ' ("deb]".data :: ('[' :: r₀) :: rs')) =
      ["deb".data, ' ' :: joinSep ' ' (('[' :: r₀) :: rs')] := by
    rw [hKdecomp]
    unfold splitOnChar
    exact splitOnPred_two (by decide) (by decide) hJ_rb
  simp only [apt_remove_word_from_brackets_in_sources_list, hsplit]
  rw [if_pos (show (["deb".data,
      ' ' :: joinSep ' ' (('[' :: r₀) :: rs')] : List Str).length = 2 from rfl)]
  rw [show (["deb".data, ' ' :: joinSep ' ' (('[' :: r₀) :: rs')]
      : List Str).headD [] = "deb".data from rfl]
  rw [show (["deb".data, ' ' :: joinSep ' ' (('[' :: r₀) :: rs')]
      : List Str).getD 1 [] = ' ' :: joinSep ' ' (('[' :: r₀) :: rs') from rfl]
  rw [show pySplitWs ("deb".data) = ["deb".data] by decide]
  have hcnt : (["deb".data] : List Str).countP (fun sb => isSubListOf word sb) ≤ 1 := by
    rw [List.countP_cons, hDeb, if_neg Bool.false_ne_true]
    simp
  rw [pyFilterRemove_eq_filter hcnt]
  rw [show (["deb".data] : List Str).filter (fun t => !isSubListOf word t) =
    ["deb".data] by simp [List.filter_cons, hDeb]]
  have hlbmem : isSubListOf ['[']
      (joinSep ' ' ["deb".data] ++ ']' :: ' ' ::
        joinSep ' ' (('[' :: r₀) :: rs')) = true := by
    rw [isSubListOf_single_iff]
    apply List.mem_append.mpr
    right
    apply List.mem_cons_of_mem
    apply List.mem_cons_of_mem
    rw [mem_joinSep (by decide)]
    exact ⟨'[' :: r₀, by simp, by simp⟩
  rw [if_pos hlbmem]
  rw [hKdecomp]
  rfl

/-- Claim C2 (amended): the normalizer is idempotent on canonical entries
`deb [o1 ... ok] r1 ... rm` in which at most one options-block token
contains the strip-word `signed-by` (the removal loop skips the successor of
each removed token, so with two adjacent matching tokens one survives and a
second normalization still changes the line). -/
theorem c2_idempotent_amended (opts rs : List Str)
    (hOpts : opts ≠ []) (hOptsTok : ∀ t ∈ opts, goodTok t)
    (hRs : rs ≠ []) (hRsTok : ∀ t ∈ rs, goodTok t)
    (hCount : opts.countP (fun t => isSubListOf ("signed-by".data) t) ≤ 1) :
    (apt_remove_word_from_brackets_in_sources_list (mkEntry opts rs)
        ("signed-by".data)).bind
      (fun r => apt_remove_word_from_brackets_in_sources_list r
        ("signed-by".data)) =
    apt_remove_word_from_brackets_in_sources_list (mkEntry opts rs)
      ("signed-by".data) := by
  have h1 := normalize_mkEntry opts rs ("signed-by".data) hOpts hOptsTok hRs
    hRsTok (by decide) (by decide) (by decide) hCount
  rw [h1, Option.some_bind]
  cases hf : opts.filter (fun t => !isSubListOf ("signed-by".data) t) with
  | nil =>
    show apt_remove_word_from_brackets_in_sources_list
        (joinSep ' ' ("deb]".data :: prependFirst '[' rs)) ("signed-by".data) =
      some (joinSep ' ' ("deb]".data :: prependFirst '[' rs))
    exact normalize_fixed_nooption rs ("signed-by".data) hRs hRsTok (by decide)
  | cons o os' =>
    show apt_remove_word_from_brackets_in_sources_list
        (mkEntry (o :: os') rs) ("signed-by".data) = some (mkEntry (o :: os') rs)
    have hsub : ∀ t ∈ (o :: os'), isSubListOf ("signed-by".data) t = false := by
      intro t ht
      have := List.of_mem_filter (hf ▸ ht)
      simpa using this
    have hmem : ∀ t ∈ (o :: os'), t ∈ opts := by
      intro t ht
      exact List.mem_of_mem_filter (hf ▸ ht)
    have h2 := normalize_mkEntry (o :: os') rs ("signed-by".data) (by simp)
      (fun t ht => hOptsTok t (hmem t ht)) hRs hRsTok (by decide) (by decide)
      (by decide)
      (by
        have h0 : (o :: os').countP (fun t => isSubListOf ("signed-by".data) t) = 0 :=
          List.countP_eq_zero.mpr (fun t ht => by simp [hsub t ht])
        omega)
    rw [h2]
    rw [show (o :: os').filter (fun t => !isSubListOf ("signed-by".data) t) =
      o :: os' from List.filter_eq_self.mpr (fun t ht => by simp [hsub t ht])]

theorem c2_amended_witness :
    ((["signed-by=/usr/k.gpg".data, "arch=amd64".data] : List Str) ≠ [] ∧
      (["http://x/y".data, "bionic".data, "stable".data] : List Str) ≠ [] ∧
      (["signed-by=/usr/k.gpg".data, "arch=amd64".data] : List Str).countP
        (fun t => isSubListOf ("signed-by".data) t) ≤ 1) ∧
    (apt_remove_word_from_brackets_in_sources_list
        (mkEntry ["signed-by=/usr/k.gpg".data, "arch=amd64".data]
          ["http://x/y".data, "bionic".data, "stable".data])
        ("signed-by".data)).bind
      (fun r => apt_remove_word_from_brackets_in_sources_list r
        ("signed-by".data)) =
    apt_remove_word_from_brackets_in_sources_list
      (mkEntry ["signed-by=/usr/k.gpg".data, "arch=amd64".data]
        ["http://x/y".data, "bionic".data, "stable".data])
      ("signed-by".data) :=
  ⟨⟨by decide, by decide, by decide⟩,
   c2_idempotent_amended
     ["signed-by=/usr/k.gpg".data, "arch=amd64".data]
     ["http://x/y".data, "bionic".data, "stable".data]
     (by decide) (by decide) (by decide) (by decide) (by decide)⟩

/-- Claim C4 (amended): on a canonical entry whose options block holds at
most one token containing the strip-word `signed-by` (and whose trailing
tokens are free of it), the normalizer drops every matching token: no
whitespace token of its output contains the strip-word.  With two adjacent
matching tokens the loop skips and retains the second one. -/
theorem c4_strip_amended (opts rs : List Str)
    (hOpts : opts ≠ []) (hOptsTok : ∀ t ∈ opts, goodTok t)
    (hRs : rs ≠ []) (hRsTok : ∀ t ∈ rs, goodTok t)
    (hCount : opts.countP (fun t => isSubListOf ("signed-by".data) t) ≤ 1)
    (hRsW : ∀ t ∈ rs, isSubListOf ("signed-by".data) t = false) :
    ∃ out, apt_remove_word_from_brackets_in_sources_list (mkEntry opts rs)
        ("signed-by".data) = some out ∧
      ∀ t ∈ pySplitWs out, isSubListOf ("signed-by".data) t = false := by
  have h1 := normalize_mkEntry opts rs ("signed-by".data) hOpts hOptsTok hRs
    hRsTok (by decide) (by decide) (by decide) hCount
  cases hf : opts.filter (fun t => !isSubListOf ("signed-by".data) t) with
  | nil =>
    rw [hf] at h1
    replace h1 : apt_remove_word_from_brackets_in_sources_list (mkEntry opts rs)
        ("signed-by".data) =
        some (joinSep ' ' ("deb]".data :: prependFirst '[' rs)) := h1
    refine ⟨_, h1, ?_⟩
    obtain ⟨r₀, rs', rfl⟩ := List.exists_cons_of_ne_nil hRs
    rw [show prependFirst '[' (r₀ :: rs') = ('[' :: r₀) :: rs' from rfl]
    rw [pySplitWs_joinSep (by
      intro t ht
      rcases List.mem_cons.mp ht with rfl | ht
      · exact ⟨by decide, by decide⟩
      rcases List.mem_cons.mp ht with rfl | ht
      · have hr0 := hRsTok r₀ (List.mem_cons_self _ _)
        refine ⟨by simp, ?_⟩
        intro c hc
        rcases List.mem_cons.mp hc with rfl | hc
        · decide
        · exact (hr0.2 c hc).1
      · exact ⟨(hRsTok t (List.mem_cons_of_mem _ ht)).1,
          fun c hc => ((hRsTok t (List.mem_cons_of_mem _ ht)).2 c hc).1⟩)]
    intro t ht
    rcases List.mem_cons.mp ht with rfl | ht
    · rw [show ("deb]".data : Str) = "deb".data ++ [']'] by decide,
        isSubListOf_append_singleton (by decide) (by decide)]
      decide
    rcases List.mem_cons.mp ht with rfl | ht
    · rw [isSubListOf_cons_lb (by decide) (by decide)]
      exact hRsW r₀ (List.mem_cons_self _ _)
    · exact hRsW t (List.mem_cons_of_mem _ ht)
  | cons o os' =>
    rw [hf] at h1
    replace h1 : apt_remove_word_from_brackets_in_sources_list (mkEntry opts rs)
        ("signed-by".data) = some (mkEntry (o :: os') rs) := h1
    refine ⟨_, h1, ?_⟩
    have hsub : ∀ t ∈ (o :: os'), isSubListOf ("signed-by".data) t = false := by
      intro t ht
      have := List.of_mem_filter (hf ▸ ht)
      simpa using this
    have hmem : ∀ t ∈ (o :: os'), t ∈ opts := by
      intro t ht
      exact List.mem_of_mem_filter (hf ▸ ht)
    rw [pySplitWs_mkEntry (fun t ht => hOptsTok t (hmem t ht)) hRsTok]
    intro t ht
    rcases List.mem_cons.mp ht with rfl | ht
    · decide
    rcases List.mem_append.mp ht with ht | ht
    · refine appendLast_no_word (by decide) (by decide) ?_ t ht
      exact prependFirst_no_word (by decide) (by decide) hsub
    · exact hRsW t ht

theorem c4_amended_witness :
    ((["arch=i386".data, "signed-by=/usr/k.gpg".data] : List Str).countP
        (fun t => isSubListOf ("signed-by".data) t) ≤ 1 ∧
      (∀ t ∈ (["http://h/p".data, "suite".data] : List Str),
        isSubListOf ("signed-by".data) t = false)) ∧
    ∃ out, apt_remove_word_from_brackets_in_sources_list
        (mkEntry ["arch=i386".data, "signed-by=/usr/k.gpg".data]
          ["http://h/p".data, "suite".data]) ("signed-by".data) = some out ∧
      ∀ t ∈ pySplitWs out, isSubListOf ("signed-by".data) t = false :=
  ⟨⟨by decide, by decide⟩,
   c4_strip_amended ["arch=i386".data, "signed-by=/usr/k.gpg".data]
     ["http://h/p".data, "suite".data]
     (by decide) (by decide) (by decide) (by decide) (by decide) (by decide)⟩

/-- An origin record of a package's installed version (python-apt `Origin`):
only the fields the script reads are modelled. -/
structure Origin where
  origin : Str
  archive : Str
  trusted : Bool
  component : Str
  label : Str
deriving DecidableEq

/-- One key as produced by `apt_key_list` (a dict with keys
`key`, `expiry`, `name`). -/
structure AptKey where
  key : Str
  expiry : Str
  name : Str
deriving DecidableEq

/-- One repository index file as resolved by `sources.find_index`. -/
structure IndexMeta where
  label : Str
  describe : Str
deriving DecidableEq

/-- The distro identity used by the script (`aptsources.distro`). -/
structure DistroInfo where
  id : Str
  codename : Str
deriving DecidableEq

/-- Classification loop, first branch (srslsud.py line 606): packages whose
first origin label is `Ubuntu`. -/
def pkg_ubuntu (pkgs : List (Str × Origin)) : List (Str × Origin) :=
  pkgs.filter (fun p => p.2.origin == "Ubuntu".data)

/-- Classification loop, second branch (line 608): trusted, not local,
origin label starts with `LP-PPA`. -/
def pkg_thirdparty_ppa (pkgs : List (Str × Origin)) : List (Str × Origin) :=
  pkgs.filter (fun p =>
    !(p.2.origin == "Ubuntu".data) && !(p.2.archive == "now".data) &&
      p.2.trusted && "LP-PPA".data.isPrefixOf p.2.origin)

/-- Classification loop, third branch (line 613): trusted, not local, and
not a PPA. -/
def pkg_thirdparty_deb (pkgs : List (Str × Origin)) : List (Str × Origin) :=
  pkgs.filter (fun p =>
    !(p.2.origin == "Ubuntu".data) && !(p.2.archive == "now".data) &&
      p.2.trusted && !("LP-PPA".data.isPrefixOf p.2.origin))

/-- Classification loop, fourth branch (line 618): archive `now` or
untrusted; only the name is kept. -/
def pkg_local (pkgs : List (Str × Origin)) : List Str :=
  (pkgs.filter (fun p => (p.2.archive == "now".data) || !p.2.trusted)).map
    (fun p => p.1)

/-- One record of `apt_parse_debcache` output. -/
structure DebInfo where
  name : Str
  origin : Origin
  describe : Str
deriving DecidableEq

/-- The index records `apt_parse_debcache` keeps for one package: for every
candidate-version file, `sources.find_index` either fails (`none`) or yields
an index, which is kept only when its label is the Debian package-index
label.  The candidate file list and index lookup are collaborator state,
passed in as the `resolve` oracle. -/
def debianIndexRecords (resolve : Str → List (Option IndexMeta))
    (p : Str × Origin) : List DebInfo :=
  (resolve p.1).filterMap (fun idx =>
    match idx with
    | some i =>
      if i.label == "Debian Package Index".data then
        some ⟨p.1, p.2, i.describe⟩
      else none
    | none => none)

/-- Model of `apt_parse_debcache` (srslsud.py lines 446-485). -/
def apt_parse_debcache (resolve : Str → List (Option IndexMeta))
    (package_list : List (Str × Origin)) : List DebInfo :=
  package_list.flatMap (debianIndexRecords resolve)

/-- A `deb_info` record after `apt_add_deb_url_to_deb_info`: `deburl = none`
models a record in which no configured source matched, so the `deb-url` key
is absent (a later Python access would raise `KeyError`); it also absorbs
the case in which the normalizer itself raised. -/
structure DebInfoU where
  name : Str
  origin : Origin
  describe : Str
  deburl : Option Str
deriving DecidableEq

/-- Model of `apt_add_deb_url_to_deb_info` (srslsud.py lines 514-529): for
each record, every configured source containing the first word of the
record's `describe` overwrites `deb-url` with its normalized form, so the
last matching source wins. -/
def apt_add_deb_url_to_deb_info (deb_info : List DebInfo)
    (sources_list : List Str) : List DebInfoU :=
  deb_info.map (fun t =>
    let ds := (splitOnChar ' ' t.describe).headD []
    { name := t.name, origin := t.origin, describe := t.describe,
      deburl := ((sources_list.filter (fun s => isSubListOf ds s)).getLast?).bind
        (fun s => apt_remove_word_from_brackets_in_sources_list s
          ("signed-by".data)) })

/-- Python's `s.split(sep)` for a multi-character separator, fueled; each
step consumes at least one character, so `fuel = s.length` is always
enough and `pySplitOnSub` is an exact model. -/
def splitSubF (sep : Str) : Nat → Str → List Str
  | 0, s => [s]
  | fuel + 1, s =>
    if sep.isPrefixOf s = true ∧ sep ≠ [] then
      [] :: splitSubF sep fuel (s.drop sep.length)
    else
      match s with
      | [] => [[]]
      | c :: cs =>
        match splitSubF sep fuel cs with
        | [] => [[c]]
        | h :: t => (c :: h) :: t

def pySplitOnSub (sep s : Str) : List Str := splitSubF sep s.length s

/-- Python's `s.split(sep, maxsplit)` for a one-character separator. -/
def splitCharMax (sep : Char) : Nat → Str → List Str
  | _, [] => [[]]
  | 0, c :: cs => [c :: cs]
  | m + 1, c :: cs =>
    if c = sep then [] :: splitCharMax sep m cs
    else
      match splitCharMax sep (m + 1) cs with
      | [] => [[c]]
      | h :: t => (c :: h) :: t

/-- Model of `apt_get_ppa_shortcut` (srslsud.py lines 532-542).
`url.split("ppa.launchpad.net/")[1]` raises `IndexError` (modelled `none`)
when the host marker does not occur in the URL; otherwise the part after
the first marker occurrence is split on `/` with maxsplit 2 and the
shortcut is assembled when at least two segments exist, the empty string
being returned otherwise. -/
def apt_get_ppa_shortcut (url : Str) : Option Str :=
  match pySplitOnSub ("ppa.launchpad.net/".data) url with
  | _ :: tail :: _ =>
    let ppa_split := splitCharMax '/' 2 tail
    if 2 ≤ ppa_split.length then
      some ("ppa:".data ++ ppa_split.headD [] ++ '/' :: ppa_split.getD 1 [])
    else some []
  | _ => none

/-- The accumulator loop of `extract_unique_elements`: values already seen
are skipped, new ones are appended. -/
def extract_unique_elements_aux {ρ α : Type} [DecidableEq α] (get : ρ → α) :
    List ρ → List α → List α
  | [], out_list => out_list
  | el :: rest, out_list =>
    if get el ∈ out_list then extract_unique_elements_aux get rest out_list
    else extract_unique_elements_aux get rest (out_list ++ [get el])

/-- Model of `extract_unique_elements` (srslsud.py lines 545-555); the dict
key is modelled as a projection function. -/
def extract_unique_elements {ρ α : Type} [DecidableEq α]
    (elements_list : List ρ) (get : ρ → α) : List α :=
  extract_unique_elements_aux get elements_list []

/-- ASCII model of Python's `str.lower()`. -/
def lowerChar (c : Char) : Char :=
  if 'A' ≤ c ∧ c ≤ 'Z' then Char.ofNat (c.toNat + 32) else c

def pyLower (s : Str) : Str := s.map lowerChar

/-- Python's `s.replace(needle, repl)`, fueled like `splitSubF`. -/
def replaceSubF (needle repl : Str) : Nat → Str → Str
  | 0, s => s
  | fuel + 1, s =>
    if needle.isPrefixOf s = true ∧ needle ≠ [] then
      repl ++ replaceSubF needle repl fuel (s.drop needle.length)
    else
      match s with
      | [] => []
      | c :: cs => c :: replaceSubF needle repl fuel cs

def pyReplace (s needle repl : Str) : Str := replaceSubF needle repl s.length s

def hexVal (c : Char) : Option Nat :=
  if '0' ≤ c ∧ c ≤ '9' then some (c.toNat - '0'.toNat)
  else if 'a' ≤ c ∧ c ≤ 'f' then some (c.toNat - 'a'.toNat + 10)
  else if 'A' ≤ c ∧ c ≤ 'F' then some (c.toNat - 'A'.toNat + 10)
  else none

/-- ASCII model of `bytes(s, "utf-8").decode("unicode_escape")` restricted
to the escape forms that occur in apt key names (`\xHH` hex escapes and
escaped backslashes); other text passes through unchanged. -/
def pyUnicodeEscape : Str → Str
  | [] => []
  | '\\' :: 'x' :: h1 :: h2 :: rest =>
    (match hexVal h1, hexVal h2 with
     | some v1, some v2 => Char.ofNat (16 * v1 + v2) :: pyUnicodeEscape rest
     | _, _ => '\\' :: 'x' :: pyUnicodeEscape (h1 :: h2 :: rest))
  | '\\' :: '\\' :: rest => '\\' :: pyUnicodeEscape rest
  | c :: rest => c :: pyUnicodeEscape rest

/-- Heuristic (d) of the Key Matcher, named `e7` in the source
(srslsud.py line 714): `p['name'].replace("-", " ") in k['name'].lower()` —
the package name with hyphens replaced by spaces is tested as a substring
of the lower-cased key name. -/
def heuristicD (p : DebInfoU) (k : AptKey) : Bool :=
  isSubListOf (p.name.map (fun c => if c = '-' then ' ' else c))
    (pyLower k.name)

/-- The disjunction `e1 or ... or e7` of the key-matching loop
(srslsud.py lines 708-727).  In `e6`, `p['deb-url']` is read; a record with
the key absent (where Python would raise `KeyError`) is modelled by the
empty string. -/
def keyHeuristic (p : DebInfoU) (k : AptKey) : Bool :=
  let e1 := isSubListOf k.name p.name
  let e2 := isSubListOf p.name k.name
  let e3 := !p.origin.origin.isEmpty && isSubListOf p.origin.origin k.name
  let e4 := !p.origin.label.isEmpty && isSubListOf p.origin.label k.name
  let e5 := !p.origin.label.isEmpty && isSubListOf k.name p.origin.label
  let e6 :=
    if isSubListOf ("build.opensuse.org".data) k.name then
      if isSubListOf ("home\\x".data) k.name then
        isSubListOf
          ((splitOnChar ' ' (pyReplace (pyUnicodeEscape k.name)
            ("home:".data) ("home:/".data))).headD [])
          (p.deburl.getD [])
      else
        isSubListOf ((splitOnChar ' ' k.name).headD []) (p.deburl.getD [])
    else false
  let e7 := heuristicD p k
  e1 || e2 || e3 || e4 || e5 || e6 || e7

/-- The `thirdparty_keys` list built by the key-management loop
(srslsud.py lines 696-732): for each third-party record, every key whose
name does not start with `Launchpad` and that satisfies some heuristic is
recorded as a `(package name, key)` pair, in loop order. -/
def mkThirdpartyKeys (tpinfo : List DebInfoU) (apt_keys : List AptKey) :
    List (Str × AptKey) :=
  tpinfo.flatMap (fun p =>
    (apt_keys.filter (fun k =>
      !("Launchpad".data.isPrefixOf k.name) && keyHeuristic p k)).map
      (fun k => (p.name, k)))

/-- The `package_stats` dict of the snapshot (srslsud.py line 675); the
Python key `local` is spelled `localCount` here. -/
structure PackageStats where
  total : Nat
  official : Nat
  ppas : Nat
  thirdparty : Nat
  localCount : Nat
deriving DecidableEq

structure OfficialPkg where
  name : Str
  component : Str
  archive : Str
deriving DecidableEq

/-- A `launchpad_ppa_packages` record; `repo = none` models the exceptions
(`KeyError` on a missing `deb-url`, `IndexError` in the shortcut) that
would abort a real save. -/
structure PpaPkg where
  name : Str
  repo : Option Str
deriving DecidableEq

/-- A `thirdparty_packages` record; `repo = none` models the `KeyError` on
a missing `deb-url`. -/
structure TpPkg where
  name : Str
  repo : Option Str
deriving DecidableEq

/-- The snapshot document `deb_pkg_list` written to `debs.json`. -/
structure DebPkgList where
  distro : DistroInfo
  package_stats : PackageStats
  official_packages : List OfficialPkg
  launchpad_ppa_packages : List PpaPkg
  thirdparty_packages : List TpPkg
  thirdparty_keys : List (Str × AptKey)
  local_packages : List Str
deriving DecidableEq

/-- The host state read by a save run: the filtered manual package list
(each with its first installed origin) and the three collaborators (package
cache resolution oracle, source registry, key store). -/
structure HostState where
  distro : DistroInfo
  pkgs : List (Str × Origin)
  resolve : Str → List (Option IndexMeta)
  sources : List Str
  keys : List AptKey

/-- Model of the `save` branch of `apt_operations`
(srslsud.py lines 585-737). -/
def apt_save (h : HostState) : DebPkgList :=
  let installed := h.pkgs
  let pu := pkg_ubuntu installed
  let pp := pkg_thirdparty_ppa installed
  let pd := pkg_thirdparty_deb installed
  let pl := pkg_local installed
  let pkg_ubuntu_info := apt_parse_debcache h.resolve pu
  let pkg_thirdparty_ppa_info :=
    apt_add_deb_url_to_deb_info (apt_parse_debcache h.resolve pp) h.sources
  let pkg_thirdparty_deb_info :=
    apt_add_deb_url_to_deb_info (apt_parse_debcache h.resolve pd) h.sources
  { distro := h.distro
    package_stats :=
      { total := installed.length, official := pu.length, ppas := pp.length,
        thirdparty := pd.length, localCount := pl.length }
    official_packages := pkg_ubuntu_info.map (fun op =>
      { name := op.name, component := op.origin.component,
        archive := op.origin.archive })
    launchpad_ppa_packages := pkg_thirdparty_ppa_info.map (fun lpp =>
      { name := lpp.name, repo := lpp.deburl.bind apt_get_ppa_shortcut })
    thirdparty_packages := pkg_thirdparty_deb_info.map (fun p =>
      { name := p.name, repo := p.deburl })
    thirdparty_keys := mkThirdpartyKeys pkg_thirdparty_deb_info h.keys
    local_packages := pl }

/-- The run-time distro guard written as the second script line
(srslsud.py line 753). -/
def guardLine (codename : Str) : Str :=
  "lsb_release -cs | grep -q '".data ++ codename ++
    ("' || \x7b echo 'Error: you are running different system version. Script will stop.'; exit; \x7d").data

/-- Script lines for the official bucket (srslsud.py lines 755-768). -/
def officialSection (snap : DebPkgList) : List Str :=
  if 0 < snap.package_stats.official then
    "dpkg --add-architecture i386".data ::
      ((extract_unique_elements snap.official_packages
          (fun p => p.component)).map
        (fun c => "add-apt-repository ".data ++ c) ++
       ["apt-get update".data,
        "apt install ".data ++ joinSep ' '
          (extract_unique_elements snap.official_packages (fun p => p.name))])
  else []

/-- Script lines for the PPA bucket (srslsud.py lines 770-781); the
unreachable `none` repo (a real save would have crashed) is formatted as
the empty string. -/
def ppaSection (snap : DebPkgList) : List Str :=
  if 0 < snap.package_stats.ppas then
    (extract_unique_elements snap.launchpad_ppa_packages (fun p => p.repo)).map
        (fun r => "add-apt-repository ".data ++ r.getD []) ++
      ["apt-get update".data,
       "apt install ".data ++ joinSep ' '
        (extract_unique_elements snap.launchpad_ppa_packages (fun p => p.name))]
  else []

/-- Script lines for the third-party bucket (srslsud.py lines 783-797):
key imports, then quoted repository adds, then one cache refresh, then one
install line.  Keys are de-duplicated as whole records, so two records
sharing an id still yield two import lines. -/
def thirdpartySection (snap : DebPkgList) : List Str :=
  if 0 < snap.package_stats.thirdparty then
    (extract_unique_elements snap.thirdparty_keys (fun pk => pk.2)).map
        (fun k =>
          "apt-key adv --keyserver keyserver.ubuntu.com --recv ".data ++ k.key) ++
      ((extract_unique_elements snap.thirdparty_packages (fun p => p.repo)).map
          (fun r => "add-apt-repository '".data ++ r.getD [] ++ "'".data) ++
        ["apt-get update".data,
         "apt install ".data ++ joinSep ' '
          (extract_unique_elements snap.thirdparty_packages (fun p => p.name))])
  else []

/-- Result of a load run: the lines appended to `apt.sh` (the file is
truncated on open, so it starts empty) and whether the distro-mismatch
report was printed. -/
structure LoadResult where
  script : List Str
  mismatch : Bool
deriving DecidableEq

/-- Model of the `load` branch of `apt_operations`
(srslsud.py lines 739-808): on a distro id/codename match with a positive
total, the shebang, the guard and the per-bucket sections are appended in
order (the local bucket only prints); otherwise the script file stays
empty and the mismatch error is reported. -/
def apt_load (distro : DistroInfo) (snap : DebPkgList) : LoadResult :=
  if snap.distro.codename = distro.codename ∧ snap.distro.id = distro.id then
    { mismatch := false
      script :=
        if 0 < snap.package_stats.total then
          "#!/bin/bash".data :: guardLine distro.codename ::
            (officialSection snap ++ ppaSection snap ++ thirdpartySection snap)
        else [] }
  else { script := [], mismatch := true }

/-- Claim C7: when the snapshot's recorded codename differs from the live
host's codename, the load reports a distro mismatch and writes nothing to
the generated script file (so in particular no installable command beyond
at most the guard line). -/
theorem c7_distro_mismatch_no_script (d : DistroInfo) (snap : DebPkgList)
    (h : snap.distro.codename ≠ d.codename) :
    (apt_load d snap).script = [] ∧ (apt_load d snap).mismatch = true := by
  unfold apt_load
  rw [if_neg (fun hc => h hc.1)]
  exact ⟨rfl, rfl⟩

def c7Snap : DebPkgList :=
  { distro := ⟨"Ubuntu".data, "bionic".data⟩
    package_stats := ⟨3, 1, 1, 1, 0⟩
    official_packages := [⟨"vim".data, "universe".data, "bionic".data⟩]
    launchpad_ppa_packages := [⟨"foo".data, some ("ppa:bar/baz".data)⟩]
    thirdparty_packages := [⟨"docker-ce".data,
      some ("deb [arch=amd64] https://download.docker.com/linux/ubuntu bionic stable".data)⟩]
    thirdparty_keys := []
    local_packages := [] }

theorem c7_witness :
    c7Snap.distro.codename ≠ (⟨"Ubuntu".data, "focal".data⟩ : DistroInfo).codename ∧
    (apt_load ⟨"Ubuntu".data, "focal".data⟩ c7Snap).script = [] ∧
    (apt_load ⟨"Ubuntu".data, "focal".data⟩ c7Snap).mismatch = true :=
  ⟨by decide,
   c7_distro_mismatch_no_script ⟨"Ubuntu".data, "focal".data⟩ c7Snap (by decide)⟩

/-- A package counted by both the Official branch and the Local branch of
the classification loop: origin label `Ubuntu` together with archive `now`
or a missing trust flag. -/
def classifyOverlap (p : Str × Origin) : Bool :=
  (p.2.origin == "Ubuntu".data) && ((p.2.archive == "now".data) || !p.2.trusted)

theorem classify_singleton_count (p : Str × Origin) :
    (pkg_ubuntu [p]).length + (pkg_thirdparty_ppa [p]).length +
      (pkg_thirdparty_deb [p]).length + (pkg_local [p]).length =
      1 + (if classifyOverlap p then 1 else 0) := by
  obtain ⟨n, o⟩ := p
  cases h1 : (o.origin == "Ubuntu".data) <;>
    cases h2 : (o.archive == "now".data) <;>
    cases h3 : o.trusted <;>
    cases h4 : ("LP-PPA".data.isPrefixOf o.origin) <;>
    simp [pkg_ubuntu, pkg_thirdparty_ppa, pkg_thirdparty_deb, pkg_local,
      classifyOverlap, List.filter_cons, h1, h2, h3, h4]

theorem classify_count_sum (pkgs : List (Str × Origin)) :
    (pkg_ubuntu pkgs).length + (pkg_thirdparty_ppa pkgs).length +
      (pkg_thirdparty_deb pkgs).length + (pkg_local pkgs).length =
      pkgs.length + pkgs.countP classifyOverlap := by
  induction pkgs with
  | nil => rfl
  | cons p ps ih =>
    have hp := classify_singleton_count p
    simp only [pkg_ubuntu, pkg_thirdparty_ppa, pkg_thirdparty_deb, pkg_local,
      List.length_map, List.filter_cons, List.filter_nil,
      apply_ite List.length, List.length_cons, List.length_nil,
      List.countP_cons] at hp ih ⊢
    split_ifs at hp ⊢ <;> omega

def c1Host : HostState :=
  { distro := ⟨"Ubuntu".data, "bionic".data⟩
    pkgs := [("mypkg".data,
      { origin := "Ubuntu".data, archive := "now".data, trusted := true,
        component := "main".data, label := "Ubuntu".data })]
    resolve := fun _ => []
    sources := []
    keys := [] }

/-- Claim C1, counterexample: a package whose first origin has label
`Ubuntu` and archive `now` satisfies both the Official and the Local branch
of the classification loop (its four `if`s are independent, not
`elif`-chained), so the four bucket counts recorded in `package_stats` sum
to 2 although the filtered manual set has one package. -/
theorem c1_counterexample :
    (apt_save c1Host).package_stats.official +
      (apt_save c1Host).package_stats.ppas +
      (apt_save c1Host).package_stats.thirdparty +
      (apt_save c1Host).package_stats.localCount ≠
    (apt_save c1Host).package_stats.total := by decide

/-- Claim C1 (amended): every surviving manual package is assigned to at
least one bucket, and to exactly one unless its first origin has label
`Ubuntu` while also being local-like (archive `now` or untrusted), in which
case it is counted both as Official and as Local; the four counts recorded
in `package_stats` therefore sum to the size of the filtered manual set
plus the number of such doubly-classified packages. -/
theorem c1_bucket_partition_amended (h : HostState) :
    ((apt_save h).package_stats.official + (apt_save h).package_stats.ppas +
      (apt_save h).package_stats.thirdparty +
      (apt_save h).package_stats.localCount =
      (apt_save h).package_stats.total + h.pkgs.countP classifyOverlap) ∧
    ∀ p : Str × Origin,
      (pkg_ubuntu [p]).length + (pkg_thirdparty_ppa [p]).length +
        (pkg_thirdparty_deb [p]).length + (pkg_local [p]).length =
        1 + (if classifyOverlap p then 1 else 0) := by
  refine ⟨?_, classify_singleton_count⟩
  have e : (apt_save h).package_stats =
      { total := h.pkgs.length, official := (pkg_ubuntu h.pkgs).length,
        ppas := (pkg_thirdparty_ppa h.pkgs).length,
        thirdparty := (pkg_thirdparty_deb h.pkgs).length,
        localCount := (pkg_local h.pkgs).length } := rfl
  rw [e]
  exact classify_count_sum h.pkgs

def c3Host : HostState :=
  { distro := ⟨"Ubuntu".data, "bionic".data⟩
    pkgs := [("vim".data,
      { origin := "Ubuntu".data, archive := "bionic".data, trusted := true,
        component := "main".data, label := "Ubuntu".data })]
    resolve := fun _ => []
    sources := []
    keys := [] }

/-- Claim C3, counterexample: the per-bucket counts are taken from the
classification lists before origin resolution, while the persisted lists
are built from the resolved records; with a package whose candidate version
resolves to no Debian package index, `package_stats.official` is 1 but
`official_packages` is empty. -/
theorem c3_counterexample :
    (apt_save c3Host).package_stats.official ≠
      (apt_save c3Host).official_packages.length := by decide

theorem length_flatMap_all_one {α β : Type} (l : List α) (f : α → List β)
    (h : ∀ a ∈ l, (f a).length = 1) : (l.flatMap f).length = l.length := by
  induction l with
  | nil => rfl
  | cons a as ih =>
    have ha := h a (List.mem_cons_self a as)
    have hrest := ih (fun b hb => h b (List.mem_cons_of_mem a hb))
    simp [List.flatMap_cons, List.length_append, ha, hrest]
    omega

/-- Claim C3 (amended): the per-bucket counts in `package_stats` equal the
lengths of the classification lists (and the local pair always agrees),
while the persisted bucket lists have one entry per resolved
(package, Debian-index) record; a bucket's count equals its persisted list
length when every classified package of that bucket resolves to exactly one
such record. -/
theorem c3_stats_amended (h : HostState) :
    ((apt_save h).package_stats.localCount =
      (apt_save h).local_packages.length) ∧
    ((apt_save h).package_stats.official = (pkg_ubuntu h.pkgs).length ∧
     (apt_save h).package_stats.ppas = (pkg_thirdparty_ppa h.pkgs).length ∧
     (apt_save h).package_stats.thirdparty =
       (pkg_thirdparty_deb h.pkgs).length) ∧
    ((apt_save h).official_packages.length =
       (apt_parse_debcache h.resolve (pkg_ubuntu h.pkgs)).length ∧
     (apt_save h).launchpad_ppa_packages.length =
       (apt_parse_debcache h.resolve (pkg_thirdparty_ppa h.pkgs)).length ∧
     (apt_save h).thirdparty_packages.length =
       (apt_parse_debcache h.resolve (pkg_thirdparty_deb h.pkgs)).length) ∧
    ((∀ p ∈ pkg_ubuntu h.pkgs, (debianIndexRecords h.resolve p).length = 1) →
      (apt_save h).package_stats.official =
        (apt_save h).official_packages.length) := by
  have eo : (apt_save h).official_packages.length =
      (apt_parse_debcache h.resolve (pkg_ubuntu h.pkgs)).length := by
    simp [apt_save, List.length_map]
  refine ⟨?_, ⟨rfl, rfl, rfl⟩,
    ⟨eo, by simp [apt_save, apt_add_deb_url_to_deb_info, List.length_map],
      by simp [apt_save, apt_add_deb_url_to_deb_info, List.length_map]⟩, ?_⟩
  · simp [apt_save, pkg_local, List.length_map]
  · intro hres
    have e1 : (apt_save h).package_stats.official =
        (pkg_ubuntu h.pkgs).length := rfl
    rw [e1, eo, apt_parse_debcache, length_flatMap_all_one _ _ hres]

def c3wHost : HostState :=
  { distro := ⟨"Ubuntu".data, "bionic".data⟩
    pkgs := [("vim".data,
      { origin := "Ubuntu".data, archive := "bionic".data, trusted := true,
        component := "main".data, label := "Ubuntu".data })]
    resolve := fun _ =>
      [some ⟨"Debian Package Index".data,
        "http://archive.ubuntu.com/ubuntu bionic/main amd64 Packages".data⟩]
    sources := []
    keys := [] }

theorem c3_amended_witness :
    (∀ p ∈ pkg_ubuntu c3wHost.pkgs,
      (debianIndexRecords c3wHost.resolve p).length = 1) ∧
    (apt_save c3wHost).package_stats.official =
      (apt_save c3wHost).official_packages.length :=
  ⟨by decide, (c3_stats_amended c3wHost).2.2.2 (by decide)⟩

/-- Modelled from the spec: the wording of heuristic (d) in claim C5 —
the key name, case-folded and with its hyphens replaced by spaces, as a
substring of the package name's case-folded form — written out for
comparison with the source's `e7`. -/
def specHeuristicD (p : DebInfoU) (k : AptKey) : Bool :=
  isSubListOf ((pyLower k.name).map (fun c => if c = '-' then ' ' else c))
    (pyLower p.name)

def c5Pkg : DebInfoU :=
  { name := "yandex-disk".data
    origin := ⟨"Yandex".data, "stable".data, true, "main".data,
      "Yandex".data⟩
    describe := []
    deburl := some [] }

def c5Key : AptKey :=
  { key := "5E2F1A7F".data, expiry := "2030-01-01".data,
    name := "Yandex Disk".data }

/-- Claim C5, counterexample: the source's heuristic (d) tests the package
name (hyphens replaced by spaces, not case-folded) against the lower-cased
key name — the reverse of the claim's direction.  For the pair
(`yandex-disk`, key `Yandex Disk`) the code's test holds while the claim's
condition does not. -/
theorem c5_counterexample :
    heuristicD c5Pkg c5Key = true ∧ specHeuristicD c5Pkg c5Key = false := by
  refine ⟨by decide, by decide⟩

/-- Claim C5 (amended): heuristic (d) (`e7` in the source) holds exactly
when the package name with its hyphens replaced by spaces is a substring of
the key name lower-cased; whenever it holds for a third-party record and a
key whose name does not start with `Launchpad`, the key is recorded as a
match for the package. -/
theorem c5_heuristic_d_amended (tpinfo : List DebInfoU) (keys : List AptKey)
    (p : DebInfoU) (k : AptKey) (hp : p ∈ tpinfo) (hk : k ∈ keys)
    (hd : heuristicD p k = true)
    (hlp : ("Launchpad".data.isPrefixOf k.name) = false) :
    (heuristicD p k =
      isSubListOf (p.name.map (fun c => if c = '-' then ' ' else c))
        (pyLower k.name)) ∧
    (p.name, k) ∈ mkThirdpartyKeys tpinfo keys := by
  refine ⟨rfl, ?_⟩
  unfold mkThirdpartyKeys
  refine List.mem_flatMap.mpr ⟨p, hp, ?_⟩
  refine List.mem_map.mpr ⟨k, ?_, rfl⟩
  refine List.mem_filter.mpr ⟨hk, ?_⟩
  rw [hlp]
  simp only [Bool.not_false, Bool.true_and]
  unfold keyHeuristic
  simp [hd]

def c5wPkg : DebInfoU :=
  { name := "yandex-disk".data
    origin := ⟨"Yandex".data, "stable".data, true, "main".data,
      "Yandex".data⟩
    describe := "http://repo.yandex.ru/yandex-disk/deb/ Packages".data
    deburl := some ("deb [] http://repo.yandex.ru/yandex-disk/deb/ stable main".data) }

def c5wKey : AptKey :=
  { key := "0F343A3E".data, expiry := "2030-01-01".data,
    name := "Yandex Disk".data }

theorem c5_amended_witness :
    (c5wPkg ∈ [c5wPkg] ∧ c5wKey ∈ [c5wKey] ∧
      heuristicD c5wPkg c5wKey = true ∧
      ("Launchpad".data.isPrefixOf c5wKey.name) = false) ∧
    ((heuristicD c5wPkg c5wKey =
        isSubListOf (c5wPkg.name.map (fun c => if c = '-' then ' ' else c))
          (pyLower c5wKey.name)) ∧
      (c5wPkg.name, c5wKey) ∈ mkThirdpartyKeys [c5wPkg] [c5wKey]) :=
  ⟨⟨by decide, by decide, by decide, by decide⟩,
   c5_heuristic_d_amended [c5wPkg] [c5wKey] c5wPkg c5wKey
     (by decide) (by decide) (by decide) (by decide)⟩

theorem isSubListOf_of_isPrefixOf {n s : Str} (h : n.isPrefixOf s = true) :
    isSubListOf n s = true := by
  cases s with
  | nil =>
    cases n with
    | nil => rfl
    | cons a m => simp [List.isPrefixOf] at h
  | cons c cs =>
    show (n.isPrefixOf (c :: cs) || isSubListOf n cs) = true
    rw [h]
    rfl

theorem splitSubF_no_sub {sep : Str} (_hsep : sep ≠ []) :
    ∀ (fuel : Nat) (s : Str), isSubListOf sep s = false →
      splitSubF sep fuel s = [s] := by
  intro fuel
  induction fuel with
  | zero => intro s _; rfl
  | succ f ih =>
    intro s hs
    have hnp : ¬(sep.isPrefixOf s = true ∧ sep ≠ []) := by
      rintro ⟨hpre, _⟩
      rw [isSubListOf_of_isPrefixOf hpre] at hs
      exact Bool.noConfusion hs
    unfold splitSubF
    rw [if_neg hnp]
    cases s with
    | nil => rfl
    | cons c cs =>
      have hcs : isSubListOf sep cs = false := by
        have hs2 : (sep.isPrefixOf (c :: cs) || isSubListOf sep cs) = false := hs
        exact (Bool.or_eq_false_iff.mp hs2).2
      show (match splitSubF sep f cs with
            | [] => [[c]]
            | h :: t => (c :: h) :: t) = [c :: cs]
      rw [ih cs hcs]

theorem apt_get_ppa_shortcut_no_marker {url : Str}
    (h : isSubListOf ("ppa.launchpad.net/".data) url = false) :
    apt_get_ppa_shortcut url = none := by
  unfold apt_get_ppa_shortcut pySplitOnSub
  rw [splitSubF_no_sub (by decide) url.length url h]

theorem splitCharMax_ne_nil (sep : Char) :
    ∀ (m : Nat) (s : Str), splitCharMax sep m s ≠ [] := by
  intro m s
  cases s with
  | nil => cases m <;> simp [splitCharMax]
  | cons c cs =>
    cases m with
    | zero => simp [splitCharMax]
    | succ m' =>
      unfold splitCharMax
      by_cases hc : c = sep
      · simp [hc]
      · rw [if_neg hc]
        cases splitCharMax sep (m' + 1) cs <;> simp

theorem splitCharMax_no_sep {sep : Char} :
    ∀ (s : Str), sep ∉ s → ∀ m, splitCharMax sep m s = [s] := by
  intro s
  induction s with
  | nil => intro _ m; cases m <;> rfl
  | cons c cs ih =>
    intro h m
    cases m with
    | zero => rfl
    | succ m' =>
      unfold splitCharMax
      rw [if_neg (fun e => h (by simp [e]))]
      rw [ih (fun hm => h (List.mem_cons_of_mem c hm)) (m' + 1)]

theorem splitCharMax_found {sep : Char} :
    ∀ (a : Str), sep ∉ a → ∀ (m : Nat) (b : Str),
      splitCharMax sep (m + 1) (a ++ sep :: b) = a :: splitCharMax sep m b := by
  intro a
  induction a with
  | nil =>
    intro _ m b
    show splitCharMax sep (m + 1) (sep :: b) = [] :: splitCharMax sep m b
    simp only [splitCharMax]
    rw [if_pos trivial]
  | cons c cs ih =>
    intro h m b
    show splitCharMax sep (m + 1) (c :: (cs ++ sep :: b)) = _
    simp only [splitCharMax]
    rw [if_neg (fun e => h (by simp [e]))]
    rw [ih (fun hm => h (List.mem_cons_of_mem c hm)) m b]

theorem splitCharMax_one_head {sep : Char} :
    ∀ b : Str, (splitCharMax sep 1 b).headD [] =
      b.takeWhile (fun c => !(c == sep)) := by
  intro b
  induction b with
  | nil => rfl
  | cons c cs ih =>
    unfold splitCharMax
    by_cases hc : c = sep
    · subst hc
      rw [if_pos rfl]
      simp [List.takeWhile_cons]
    · rw [if_neg hc]
      cases hsp : splitCharMax sep 1 cs with
      | nil => exact absurd hsp (splitCharMax_ne_nil sep 1 cs)
      | cons hh tt =>
        rw [hsp] at ih
        simp only [List.headD] at ih ⊢
        simp [List.takeWhile_cons, beq_eq_false_iff_ne.mpr hc, ih]

/-- Claim C6, counterexample: on a URL without the `ppa.launchpad.net/`
host marker (hence with no path segments after it),
`url.split("ppa.launchpad.net/")[1]` raises `IndexError` (modelled `none`)
instead of returning the empty string. -/
theorem c6_counterexample :
    apt_get_ppa_shortcut ("http://example.com/x".data) = none ∧
    apt_get_ppa_shortcut ("http://example.com/x".data) ≠ some [] := by
  refine ⟨by decide, by decide⟩

/-- Claim C6 (amended): for URLs that contain the host marker the claim
holds — with fewer than two path segments after the marker (no slash in the
part after it) the function returns the empty string without raising, and
with at least two segments it returns `ppa:` followed by the first two —
while on a URL without the marker the function raises. -/
theorem c6_ppa_shortcut_amended (url : Str) :
    (isSubListOf ("ppa.launchpad.net/".data) url = false →
      apt_get_ppa_shortcut url = none) ∧
    (∀ pre tail, pySplitOnSub ("ppa.launchpad.net/".data) url = [pre, tail] →
      (('/' ∉ tail) → apt_get_ppa_shortcut url = some []) ∧
      (∀ a b, tail = a ++ '/' :: b → '/' ∉ a →
        apt_get_ppa_shortcut url =
          some ("ppa:".data ++ a ++ '/' ::
            b.takeWhile (fun c => !(c == '/'))))) := by
  refine ⟨apt_get_ppa_shortcut_no_marker, ?_⟩
  intro pre tail hsplit
  have e : apt_get_ppa_shortcut url =
      (if 2 ≤ (splitCharMax '/' 2 tail).length then
        some ("ppa:".data ++ (splitCharMax '/' 2 tail).headD [] ++
          '/' :: (splitCharMax '/' 2 tail).getD 1 [])
      else some []) := by
    unfold apt_get_ppa_shortcut
    rw [hsplit]
  constructor
  · intro hslash
    rw [e, splitCharMax_no_sep tail hslash 2]
    rw [if_neg (by simp only [List.length_cons, List.length_nil]; omega)]
  · intro a b htail hslash
    subst htail
    rw [e, splitCharMax_found a hslash 1 b]
    cases hsp : splitCharMax '/' 1 b with
    | nil => exact absurd hsp (splitCharMax_ne_nil '/' 1 b)
    | cons hh tt =>
      rw [if_pos (by simp only [List.length_cons]; omega)]
      have hhd := @splitCharMax_one_head '/' b
      rw [hsp] at hhd
      simp only [List.headD] at hhd
      rw [show ((a :: hh :: tt) : List Str).headD [] = a from rfl,
        show ((a :: hh :: tt) : List Str).getD 1 [] = hh from rfl, hhd]

theorem c6_amended_witness :
    (pySplitOnSub ("ppa.launchpad.net/".data)
        ("http://ppa.launchpad.net/user/myppa/ubuntu".data) =
      ["http://".data, "user/myppa/ubuntu".data] ∧
      ("user/myppa/ubuntu".data : Str) =
        "user".data ++ '/' :: "myppa/ubuntu".data ∧
      '/' ∉ ("user".data : Str)) ∧
    apt_get_ppa_shortcut ("http://ppa.launchpad.net/user/myppa/ubuntu".data) =
      some ("ppa:".data ++ "user".data ++ '/' ::
        ("myppa/ubuntu".data : Str).takeWhile (fun c => !(c == '/'))) :=
  ⟨⟨by decide, by decide, by decide⟩,
   ((c6_ppa_shortcut_amended
        ("http://ppa.launchpad.net/user/myppa/ubuntu".data)).2
      ("http://".data) ("user/myppa/ubuntu".data) (by decide)).2
     ("user".data) ("myppa/ubuntu".data) (by decide) (by decide)⟩

theorem isPrefixOf_append_same {P q s : Str} :
    (P ++ q).isPrefixOf (P ++ s) = q.isPrefixOf s := by
  induction P with
  | nil => rfl
  | cons c cs ih => simp [List.isPrefixOf, ih]

theorem isPrefixOf_self_append (q s : Str) : q.isPrefixOf (q ++ s) = true := by
  induction q with
  | nil => simp [List.isPrefixOf]
  | cons c cs ih => simp [List.isPrefixOf, ih]

/-- A key-import line of the synthesized script. -/
def isKeyImportLine (l : Str) : Bool := "apt-key adv".data.isPrefixOf l

/-- A third-party repository-add line of the synthesized script (the
third-party section is the only one whose `add-apt-repository` argument is
quoted). -/
def isTpRepoAddLine (l : Str) : Bool :=
  "add-apt-repository '".data.isPrefixOf l

/-- Claim C8: in a script generated for a matching host from a snapshot with
a positive third-party count, all key-import lines precede all third-party
repository-add lines, which precede the third-party cache refresh, which
precedes the third-party install line: the script decomposes into a prefix
without key-import or quoted repository-add lines followed by exactly those
four groups in order.  The two quoting hypotheses rule out snapshot data in
which an official component or PPA shortcut itself starts with a single
quote, which a save run never produces. -/
theorem c8_thirdparty_order (d : DistroInfo) (snap : DebPkgList)
    (hmatch : snap.distro.codename = d.codename ∧ snap.distro.id = d.id)
    (htotal : 0 < snap.package_stats.total)
    (htp : 0 < snap.package_stats.thirdparty)
    (hoffq : ∀ c ∈ extract_unique_elements snap.official_packages
      (fun p => p.component), ("'".data : Str).isPrefixOf c = false)
    (hppaq : ∀ r ∈ extract_unique_elements snap.launchpad_ppa_packages
      (fun p => p.repo), ("'".data : Str).isPrefixOf (r.getD []) = false) :
    ∃ pre,
      ((apt_load d snap).script =
        pre ++
          ((extract_unique_elements snap.thirdparty_keys (fun pk => pk.2)).map
            (fun k =>
              "apt-key adv --keyserver keyserver.ubuntu.com --recv ".data ++
                k.key) ++
           ((extract_unique_elements snap.thirdparty_packages
                (fun p => p.repo)).map
              (fun r => "add-apt-repository '".data ++ r.getD [] ++ "'".data) ++
            ["apt-get update".data,
             "apt install ".data ++ joinSep ' '
               (extract_unique_elements snap.thirdparty_packages
                 (fun p => p.name))]))) ∧
      (∀ l ∈ pre, isKeyImportLine l = false ∧ isTpRepoAddLine l = false) ∧
      (∀ k ∈ extract_unique_elements snap.thirdparty_keys (fun pk => pk.2),
        isKeyImportLine
          ("apt-key adv --keyserver keyserver.ubuntu.com --recv ".data ++
            k.key) = true) ∧
      (∀ r ∈ extract_unique_elements snap.thirdparty_packages (fun p => p.repo),
        isTpRepoAddLine
          ("add-apt-repository '".data ++ r.getD [] ++ "'".data) = true) := by
  refine ⟨"#!/bin/bash".data :: guardLine d.codename ::
    (officialSection snap ++ ppaSection snap), ?_, ?_, ?_, ?_⟩
  · unfold apt_load
    rw [if_pos hmatch]
    show (if 0 < snap.package_stats.total then
        "#!/bin/bash".data :: guardLine d.codename ::
          (officialSection snap ++ ppaSection snap ++ thirdpartySection snap)
      else []) = _
    rw [if_pos htotal]
    unfold thirdpartySection
    rw [if_pos htp]
    simp [List.append_assoc]
  · intro l hl
    rcases List.mem_cons.mp hl with rfl | hl
    · exact ⟨by decide, by decide⟩
    rcases List.mem_cons.mp hl with rfl | hl
    · exact ⟨rfl, rfl⟩
    rcases List.mem_append.mp hl with hl | hl
    · unfold officialSection at hl
      by_cases hof : 0 < snap.package_stats.official
      · rw [if_pos hof] at hl
        rcases List.mem_cons.mp hl with rfl | hl
        · exact ⟨by decide, by decide⟩
        rcases List.mem_append.mp hl with hl | hl
        · obtain ⟨c, hc, rfl⟩ := List.mem_map.mp hl
          refine ⟨rfl, ?_⟩
          unfold isTpRepoAddLine
          rw [show ("add-apt-repository '".data : Str) =
            "add-apt-repository ".data ++ "'".data by decide,
            isPrefixOf_append_same]
          exact hoffq c hc
        rcases List.mem_cons.mp hl with rfl | hl
        · exact ⟨by decide, by decide⟩
        rcases List.mem_cons.mp hl with rfl | hl
        · exact ⟨rfl, rfl⟩
        · simp at hl
      · rw [if_neg hof] at hl
        simp at hl
    · unfold ppaSection at hl
      by_cases hpp : 0 < snap.package_stats.ppas
      · rw [if_pos hpp] at hl
        rcases List.mem_append.mp hl with hl | hl
        · obtain ⟨r, hr, rfl⟩ := List.mem_map.mp hl
          refine ⟨rfl, ?_⟩
          unfold isTpRepoAddLine
          rw [show ("add-apt-repository '".data : Str) =
            "add-apt-repository ".data ++ "'".data by decide,
            isPrefixOf_append_same]
          exact hppaq r hr
        rcases List.mem_cons.mp hl with rfl | hl
        · exact ⟨by decide, by decide⟩
        rcases List.mem_cons.mp hl with rfl | hl
        · exact ⟨rfl, rfl⟩
        · simp at hl
      · rw [if_neg hpp] at hl
        simp at hl
  · intro k _
    unfold isKeyImportLine
    rw [show ("apt-key adv --keyserver keyserver.ubuntu.com --recv ".data
        : Str) =
      "apt-key adv".data ++ " --keyserver keyserver.ubuntu.com --recv ".data
      by decide, List.append_assoc]
    exact isPrefixOf_self_append _ _
  · intro r _
    unfold isTpRepoAddLine
    rw [List.append_assoc]
    exact isPrefixOf_self_append _ _

def c8Snap : DebPkgList :=
  { distro := ⟨"Ubuntu".data, "bionic".data⟩
    package_stats := ⟨4, 1, 1, 1, 1⟩
    official_packages := [⟨"vim".data, "universe".data, "bionic".data⟩]
    launchpad_ppa_packages := [⟨"foo".data, some ("ppa:bar/baz".data)⟩]
    thirdparty_packages := [⟨"docker-ce".data,
      some ("deb [arch=amd64] https://download.docker.com/linux/ubuntu bionic stable".data)⟩]
    thirdparty_keys := [("docker-ce".data,
      ⟨"8D81803C0EBFCD88".data, "2030-01-01".data, "Docker Release".data⟩)]
    local_packages := ["custom-pkg".data] }

theorem c8_witness :
    ((c8Snap.distro.codename =
        (⟨"Ubuntu".data, "bionic".data⟩ : DistroInfo).codename ∧
      c8Snap.distro.id = (⟨"Ubuntu".data, "bionic".data⟩ : DistroInfo).id) ∧
      0 < c8Snap.package_stats.total ∧
      0 < c8Snap.package_stats.thirdparty ∧
      (∀ c ∈ extract_unique_elements c8Snap.official_packages
        (fun p => p.component), ("'".data : Str).isPrefixOf c = false) ∧
      (∀ r ∈ extract_unique_elements c8Snap.launchpad_ppa_packages
        (fun p => p.repo), ("'".data : Str).isPrefixOf (r.getD []) = false)) ∧
    ∃ pre,
      ((apt_load ⟨"Ubuntu".data, "bionic".data⟩ c8Snap).script =
        pre ++
          ((extract_unique_elements c8Snap.thirdparty_keys (fun pk => pk.2)).map
            (fun k =>
              "apt-key adv --keyserver keyserver.ubuntu.com --recv ".data ++
                k.key) ++
           ((extract_unique_elements c8Snap.thirdparty_packages
                (fun p => p.repo)).map
              (fun r => "add-apt-repository '".data ++ r.getD [] ++ "'".data) ++
            ["apt-get update".data,
             "apt install ".data ++ joinSep ' '
               (extract_unique_elements c8Snap.thirdparty_packages
                 (fun p => p.name))]))) ∧
      (∀ l ∈ pre, isKeyImportLine l = false ∧ isTpRepoAddLine l = false) ∧
      (∀ k ∈ extract_unique_elements c8Snap.thirdparty_keys (fun pk => pk.2),
        isKeyImportLine
          ("apt-key adv --keyserver keyserver.ubuntu.com --recv ".data ++
            k.key) = true) ∧
      (∀ r ∈ extract_unique_elements c8Snap.thirdparty_packages
          (fun p => p.repo),
        isTpRepoAddLine
          ("add-apt-repository '".data ++ r.getD [] ++ "'".data) = true) :=
  ⟨⟨⟨by decide, by decide⟩, by decide, by decide, by decide, by decide⟩,
   c8_thirdparty_order ⟨"Ubuntu".data, "bionic".data⟩ c8Snap
     ⟨by decide, by decide⟩ (by decide) (by decide) (by decide) (by decide)⟩

/-- Reference first-occurrence deduplication: keep each value's first
occurrence and drop the later ones. -/
def keepFirst {α : Type} [DecidableEq α] : List α → List α
  | [] => []
  | a :: l => a :: keepFirst (l.filter (fun x => !(x == a)))
termination_by l => l.length
decreasing_by
  simp only [List.length_cons]
  exact Nat.lt_succ_of_le (List.length_filter_le _ l)

theorem extract_unique_elements_aux_spec {ρ α : Type} [DecidableEq α]
    (get : ρ → α) :
    ∀ (l : List ρ) (acc : List α),
      extract_unique_elements_aux get l acc =
        acc ++ keepFirst ((l.map get).filter (fun x => !decide (x ∈ acc))) := by
  intro l
  induction l with
  | nil => intro acc; simp [extract_unique_elements_aux, keepFirst]
  | cons el rest ih =>
    intro acc
    by_cases hv : get el ∈ acc
    · rw [show extract_unique_elements_aux get (el :: rest) acc =
          extract_unique_elements_aux get rest acc from by
        simp only [extract_unique_elements_aux]
        rw [if_pos hv]]
      rw [ih acc]
      congr 2
      simp [List.filter_cons, hv]
    · rw [show extract_unique_elements_aux get (el :: rest) acc =
          extract_unique_elements_aux get rest (acc ++ [get el]) from by
        simp only [extract_unique_elements_aux]
        rw [if_neg hv]]
      rw [ih (acc ++ [get el])]
      have hpred : ∀ x, (!decide (x ∈ acc ++ [get el])) =
          ((!(x == get el)) && !decide (x ∈ acc)) := by
        intro x
        by_cases hx1 : x ∈ acc <;> by_cases hx2 : x = get el <;>
          simp [hx1, hx2]
      have e1 : (rest.map get).filter (fun x => !decide (x ∈ acc ++ [get el])) =
          (rest.map get).filter
            (fun x => (!(x == get el)) && !decide (x ∈ acc)) :=
        List.filter_congr (fun x _ => hpred x)
      have e2 : ((rest.map get).filter (fun x => !decide (x ∈ acc))).filter
          (fun x => !(x == get el)) =
          (rest.map get).filter
            (fun x => (!(x == get el)) && !decide (x ∈ acc)) := by
        rw [List.filter_filter]
      have e3 : ((el :: rest).map get).filter (fun x => !decide (x ∈ acc)) =
          get el :: (rest.map get).filter (fun x => !decide (x ∈ acc)) := by
        simp [List.filter_cons, hv]
      rw [e1, ← e2, e3]
      rw [show keepFirst (get el ::
          (rest.map get).filter (fun x => !decide (x ∈ acc))) =
        get el :: keepFirst (((rest.map get).filter
          (fun x => !decide (x ∈ acc))).filter (fun x => !(x == get el)))
        from by simp [keepFirst]]
      simp

theorem extract_unique_elements_eq_keepFirst {ρ α : Type} [DecidableEq α]
    (l : List ρ) (get : ρ → α) :
    extract_unique_elements l get = keepFirst (l.map get) := by
  have h := extract_unique_elements_aux_spec get l []
  rw [extract_unique_elements, h]
  simp

theorem keepFirst_subset_aux {α : Type} [DecidableEq α] :
    ∀ (n : Nat) (l : List α), l.length ≤ n → ∀ x ∈ keepFirst l, x ∈ l := by
  intro n
  induction n with
  | zero =>
    intro l h x hx
    have he : l = [] := List.length_eq_zero.mp (Nat.le_zero.mp h)
    subst he
    simp [keepFirst] at hx
  | succ m ih =>
    intro l h x hx
    cases l with
    | nil => simp [keepFirst] at hx
    | cons a t =>
      rw [show keepFirst (a :: t) =
        a :: keepFirst (t.filter (fun y => !(y == a))) from by
          simp [keepFirst]] at hx
      rcases List.mem_cons.mp hx with rfl | hx
      · exact List.mem_cons_self _ _
      · have hlen : (t.filter (fun y => !(y == a))).length ≤ m :=
          le_trans (List.length_filter_le _ t) (by simpa using h)
        exact List.mem_cons_of_mem a
          (List.mem_of_mem_filter (ih _ hlen x hx))

theorem keepFirst_mem_of_mem_aux {α : Type} [DecidableEq α] :
    ∀ (n : Nat) (l : List α), l.length ≤ n → ∀ x ∈ l, x ∈ keepFirst l := by
  intro n
  induction n with
  | zero =>
    intro l h x hx
    have he : l = [] := List.length_eq_zero.mp (Nat.le_zero.mp h)
    subst he
    simp at hx
  | succ m ih =>
    intro l h x hx
    cases l with
    | nil => simp at hx
    | cons a t =>
      rw [show keepFirst (a :: t) =
        a :: keepFirst (t.filter (fun y => !(y == a))) from by
          simp [keepFirst]]
      rcases List.mem_cons.mp hx with rfl | hx
      · exact List.mem_cons_self _ _
      · by_cases hxa : x = a
        · subst hxa
          exact List.mem_cons_self _ _
        · have hxf : x ∈ t.filter (fun y => !(y == a)) :=
            List.mem_filter.mpr ⟨hx, by simp [hxa]⟩
          have hlen : (t.filter (fun y => !(y == a))).length ≤ m :=
            le_trans (List.length_filter_le _ t) (by simpa using h)
          exact List.mem_cons_of_mem a (ih _ hlen x hxf)

theorem keepFirst_nodup_aux {α : Type} [DecidableEq α] :
    ∀ (n : Nat) (l : List α), l.length ≤ n → (keepFirst l).Nodup := by
  intro n
  induction n with
  | zero =>
    intro l h
    have he : l = [] := List.length_eq_zero.mp (Nat.le_zero.mp h)
    subst he
    simp [keepFirst]
  | succ m ih =>
    intro l h
    cases l with
    | nil => simp [keepFirst]
    | cons a t =>
      rw [show keepFirst (a :: t) =
        a :: keepFirst (t.filter (fun y => !(y == a))) from by
          simp [keepFirst]]
      have hlen : (t.filter (fun y => !(y == a))).length ≤ m :=
        le_trans (List.length_filter_le _ t) (by simpa using h)
      refine List.nodup_cons.mpr ⟨?_, ih _ hlen⟩
      intro hmem
      have h1 : a ∈ List.filter (fun y => !(y == a)) t :=
        keepFirst_subset_aux _ _ (Nat.le_refl _) a hmem
      have h2 := List.mem_filter.mp h1
      simp at h2

theorem keepFirst_nodup {α : Type} [DecidableEq α] (l : List α) :
    (keepFirst l).Nodup :=
  keepFirst_nodup_aux l.length l (Nat.le_refl _)

theorem keepFirst_mem_iff {α : Type} [DecidableEq α] (l : List α) (x : α) :
    x ∈ keepFirst l ↔ x ∈ l :=
  ⟨keepFirst_subset_aux l.length l (Nat.le_refl _) x,
   keepFirst_mem_of_mem_aux l.length l (Nat.le_refl _) x⟩

def c10Snap : DebPkgList :=
  { distro := ⟨"Ubuntu".data, "bionic".data⟩
    package_stats := ⟨1, 0, 0, 1, 0⟩
    official_packages := []
    launchpad_ppa_packages := []
    thirdparty_packages := [⟨"docker-ce".data,
      some ("deb [arch=amd64] https://download.docker.com/linux/ubuntu bionic stable".data)⟩]
    thirdparty_keys := [("docker-ce".data,
      ⟨"9DC858229FC7DD38".data, "2030-01-01".data, "Docker One".data⟩),
      ("docker-ce".data,
      ⟨"9DC858229FC7DD38".data, "2030-01-01".data, "Docker Two".data⟩)]
    local_packages := [] }

/-- Claim C10, counterexample: keys are de-duplicated as whole records, not
by id; two key records sharing an id but differing in name (exactly what
`apt_key_list` produces when a `uid` line follows a named `pub` line) both
survive, so the script's key-import lines contain a duplicate and the key
enumeration of the third-party section is not duplicate-free. -/
theorem c10_counterexample :
    ¬((apt_load ⟨"Ubuntu".data, "bionic".data⟩ c10Snap).script.filter
      (fun l => isKeyImportLine l)).Nodup := by decide

/-- Claim C10 (amended): `extract_unique_elements` returns the values under
the requested key with duplicates removed and first-occurrence order
preserved (it equals the keep-first deduplication of the projected list);
consequently the repository, package-name and key-record enumerations of
every script section are duplicate-free as stored values — but key-import
lines may still repeat a key id, because two distinct key records can share
one id. -/
theorem c10_extract_unique_amended {ρ α : Type} [DecidableEq α]
    (l : List ρ) (get : ρ → α) (snap : DebPkgList) :
    (extract_unique_elements l get = keepFirst (l.map get) ∧
     (extract_unique_elements l get).Nodup ∧
     ∀ x, x ∈ extract_unique_elements l get ↔ x ∈ l.map get) ∧
    ((extract_unique_elements snap.thirdparty_packages
        (fun p => p.repo)).Nodup ∧
     (extract_unique_elements snap.thirdparty_packages
        (fun p => p.name)).Nodup ∧
     (extract_unique_elements snap.thirdparty_keys (fun pk => pk.2)).Nodup ∧
     (extract_unique_elements snap.official_packages
        (fun p => p.name)).Nodup ∧
     (extract_unique_elements snap.launchpad_ppa_packages
        (fun p => p.repo)).Nodup) := by
  have key : ∀ {ρ2 α2 : Type} (i : DecidableEq α2) (l2 : List ρ2)
      (g : ρ2 → α2), (extract_unique_elements l2 g).Nodup := by
    intro ρ2 α2 i l2 g
    rw [extract_unique_elements_eq_keepFirst]
    exact keepFirst_nodup _
  refine ⟨⟨extract_unique_elements_eq_keepFirst l get, key _ l get, ?_⟩,
    key _ _ _, key _ _ _, key _ _ _, key _ _ _, key _ _ _⟩
  intro x
  rw [extract_unique_elements_eq_keepFirst]
  exact keepFirst_mem_iff _ x

end Srslsud
